import Mathlib

/-! # Call-trace profiler: per-thread state of `syzygy/call_trace/profiler.cc`

A shallow embedding of `Profiler::ThreadState` and of the three hooks
(`OnModuleEntry`, `OnFunctionEntry`, `OnFunctionExit`) together with the
aggregation (`RecordInvocation`), the slot allocator (`AllocateInvocationInfo`)
and `FlushSegment`.

Conventions of the embedding.

* `uint64` values are natural numbers; every `uint64` operation of the source is
  followed by an explicit reduction modulo `2 ^ 64`.
* Pointers into the trace buffer are byte offsets (natural numbers) from the
  first free byte of a fresh buffer.  The buffer contents are kept as three
  stores (record headers, module payloads, `InvocationInfo` cells), each a list
  of `(address, value)` writes with the newest write first, so that reading an
  address returns the value written last.
* Values the hooks read from outside the thread state are arguments of the
  embedded functions: the result of `profiler_->session_.IsDisabled()`, the
  outcome of `profiler_->session_.ExchangeBuffer(&segment_)`, the value of
  `__rdtsc()`, and the PE header fields of a module.
* Sizes and widths fixed by the declarations of `call_trace_defs.h` are
  collected in `Layout`, and every function takes the layout as a parameter.
* The methods of `TraceFileSegment` (`client_utils`), of the shadow stack
  (`shadow_stack.h`) and of the session are written after sections 4.2 to 4.4 of
  the specification; their documentation says so.
-/

namespace Profiler

/-! ## Machine arithmetic -/

/-- The modulus of `uint64` arithmetic. -/
def U64 : Nat := 2 ^ 64

/-- Addition of two `uint64` values. -/
def add64 (a b : Nat) : Nat := (a + b) % U64

/-- Subtraction of two `uint64` values (wraps around below zero). -/
def sub64 (a b : Nat) : Nat := (a % U64 + (U64 - b % U64)) % U64

/-! ## Layout constants -/

/-- Sizes of the wire structures and the width of the call counter.  They come
from `call_trace_defs.h`; the embedded code only uses them through `sizeof` and
through the arithmetic on `num_calls`. -/
structure Layout where
  /-- The value of `sizeof(RecordPrefix)`. -/
  sizeof_RecordPrefix : Nat
  /-- The value of `sizeof(InvocationInfo)`. -/
  sizeof_InvocationInfo : Nat
  /-- The value of `sizeof(InvocationInfoBatch)`. -/
  sizeof_InvocationInfoBatch : Nat
  /-- The value of `sizeof(TraceModuleData)`. -/
  sizeof_TraceModuleData : Nat
  /-- Width in bits of the field `InvocationInfo::num_calls`. -/
  num_calls_bits : Nat
deriving DecidableEq, Repr

/-- The `COMPILE_ASSERT` of `AllocateInvocationInfo`; an `InvocationInfo` is not
empty and its call counter has at least one bit. -/
def Layout.Valid (L : Layout) : Prop :=
  L.sizeof_InvocationInfo ≤ L.sizeof_InvocationInfoBatch ∧ 0 < L.sizeof_InvocationInfo ∧
  0 < L.num_calls_bits

instance (L : Layout) : Decidable L.Valid := by
  unfold Layout.Valid; infer_instance

/-- A layout for the 32-bit x86 build the hooks are written for: pointers and
`size_t` are four bytes wide, so the call counter has 32 bits, and a batch
holds one `InvocationInfo`. -/
def layout32 : Layout :=
  { sizeof_RecordPrefix := 16
    sizeof_InvocationInfo := 40
    sizeof_InvocationInfoBatch := 40
    sizeof_TraceModuleData := 1048
    num_calls_bits := 32 }

/-! ## Data model -/

/-- The pair `std::pair<RetAddr, FuncAddr>`. -/
abbrev InvocationKey := Nat × Nat

/-- The aggregated statistics of one (caller, function) pair. -/
structure InvocationInfo where
  caller : Nat
  function : Nat
  num_calls : Nat
  cycles_min : Nat
  cycles_max : Nat
  cycles_sum : Nat
deriving DecidableEq, Repr

/-- The header in front of every trace record: its type and payload size. -/
structure RecordPrefix where
  type : Nat
  size : Nat
deriving DecidableEq, Repr

/-- The payload of a module event. -/
structure TraceModuleData where
  module_base_addr : Nat
  module_base_size : Nat
  module_checksum : Nat
  module_time_date_stamp : Nat
  module_name : Nat
deriving DecidableEq, Repr

/-- The fields of a module image read through `base::win::PEImage` and
`GetMappedFileName`. -/
structure PEImage where
  SizeOfImage : Nat
  CheckSum : Nat
  TimeDateStamp : Nat
  mapped_file_name : Nat
deriving DecidableEq, Repr

/-- The trace file segment a thread records to. -/
structure TraceFileSegment where
  /-- Offset of the next free byte. -/
  write_ptr : Nat
  /-- Offset one past the last byte of the buffer. -/
  end_ptr : Nat
  /-- The field `header->segment_length`. -/
  segment_length : Nat
  /-- Record headers written, keyed by the address of the payload they precede. -/
  headers : List (Nat × RecordPrefix)
  /-- Module payloads written, keyed by address. -/
  module_data : List (Nat × TraceModuleData)
  /-- The `InvocationInfo` cells written, keyed by address. -/
  invocation_info : List (Nat × InvocationInfo)
deriving DecidableEq, Repr

/-- An entry of the shadow stack. -/
structure StackEntry where
  /-- The return address displaced by the entry hook. -/
  return_address : Nat
  /-- The address of the entry frame the entry was pushed for. -/
  entry_frame : Nat
  caller : Nat
  function : Nat
  cycles_entry : Nat
deriving DecidableEq, Repr

/-- The part of the caller's stack an entry hook sees: the return address and
the first two argument slots. -/
structure EntryFrame where
  retaddr : Nat
  args0 : Nat
  args1 : Nat
deriving DecidableEq, Repr

/-- The per-thread state `Profiler::ThreadState`, with a record of the calls
made to the session. -/
structure ThreadState where
  cycles_overhead_ : Nat
  /-- The shadow stack, innermost frame first. -/
  stack_ : List StackEntry
  /-- The invocation table: key to address of its `InvocationInfo`. -/
  invocations_ : List (InvocationKey × Nat)
  segment_ : TraceFileSegment
  /-- Address of the payload of the batch record being written, if any. -/
  batch_ : Option Nat
  logged_modules_ : List Nat
  /-- Segments handed to the session by successful exchanges, newest first. -/
  exchanged : List TraceFileSegment
  /-- Number of calls made to `ExchangeBuffer`. -/
  exchange_calls : Nat
deriving DecidableEq, Repr

/-! ## Trace file segment -/

/-- Modelled from the spec: the fresh empty segment of `capacity` bytes the
session hands out (section 4.3). -/
def TraceFileSegment.fresh (capacity : Nat) : TraceFileSegment :=
  { write_ptr := 0, end_ptr := capacity, segment_length := 0,
    headers := [], module_data := [], invocation_info := [] }

/-- Modelled from the spec: `TraceFileSegment::CanAllocateRaw` of `client_utils`,
the `can_allocate_raw(n)` of section 4.2: `n` more bytes fit behind the write
pointer. -/
def TraceFileSegment.CanAllocateRaw (seg : TraceFileSegment) (num_bytes : Nat) : Bool :=
  decide (seg.write_ptr + num_bytes ≤ seg.end_ptr)

/-- Modelled from the spec: `TraceFileSegment::CanAllocate` of `client_utils`,
the `can_allocate(n)` of section 4.2: a record with an `n`-byte payload and its
header fits. -/
def TraceFileSegment.CanAllocate (L : Layout) (seg : TraceFileSegment) (num_bytes : Nat) : Bool :=
  seg.CanAllocateRaw (num_bytes + L.sizeof_RecordPrefix)

/-- Modelled from the spec: `TraceFileSegment::AllocateTraceRecordImpl` of
`client_utils`, the `place_record` of section 4.2: writes a header of the given
type and size at the write pointer, advances the write pointer and
`segment_length` by header plus payload, and returns the payload address.  The
capacity is established by the callers and not checked again. -/
def TraceFileSegment.AllocateTraceRecordImpl (L : Layout) (seg : TraceFileSegment)
    (record_type record_size : Nat) : TraceFileSegment × Nat :=
  let payload := seg.write_ptr + L.sizeof_RecordPrefix
  ({ seg with
      write_ptr := seg.write_ptr + (L.sizeof_RecordPrefix + record_size)
      segment_length := seg.segment_length + (L.sizeof_RecordPrefix + record_size)
      headers := (payload, { type := record_type, size := record_size }) :: seg.headers },
   payload)

/-- Modelled from the spec: the record type `InvocationInfoBatch::kTypeId`, the
kind `invocation_batch` of section 6. -/
def kInvocationInfoBatchType : Nat := 0x20

/-- Reads the `InvocationInfo` stored at an address. -/
def TraceFileSegment.readInfo (seg : TraceFileSegment) (p : Nat) : Option InvocationInfo :=
  seg.invocation_info.lookup p

/-- Stores an `InvocationInfo` at an address. -/
def TraceFileSegment.writeInfo (seg : TraceFileSegment) (p : Nat) (info : InvocationInfo) :
    TraceFileSegment :=
  { seg with invocation_info := (p, info) :: seg.invocation_info }

/-- The statement `prefix->size += n` on the header in front of payload `b`. -/
def TraceFileSegment.growRecord (seg : TraceFileSegment) (b n : Nat) : TraceFileSegment :=
  match seg.headers.lookup b with
  | some h => { seg with headers := (b, { h with size := h.size + n }) :: seg.headers }
  | none => seg

/-! ## Flush and allocation -/

/-- Modelled from the spec: `ExchangeBuffer` of the session, the `exchange` of
section 4.3.  The outcome `x` is `none` when the exchange fails, which leaves
the segment as it is, and `some capacity` when the session takes the segment
and hands back an empty buffer of that capacity.  Every call is counted in
`exchange_calls`, every segment taken is kept in `exchanged`. -/
def ExchangeBuffer (s : ThreadState) (x : Option Nat) : ThreadState × Bool :=
  match x with
  | none => ({ s with exchange_calls := s.exchange_calls + 1 }, false)
  | some capacity =>
    ({ s with
        exchange_calls := s.exchange_calls + 1
        exchanged := s.segment_ :: s.exchanged
        segment_ := TraceFileSegment.fresh capacity }, true)

/-- The method `Profiler::ThreadState::FlushSegment`. -/
def FlushSegment (s : ThreadState) (x : Option Nat) : ThreadState × Bool :=
  ExchangeBuffer { s with batch_ := none, invocations_ := [] } x

/-- The method `Profiler::ThreadState::AllocateInvocationInfo`; `none` is `NULL`.
The second branch is `!CanAllocate(..) && !FlushSegment()`: the flush is only
attempted when a new batch record does not fit. -/
def AllocateInvocationInfo (L : Layout) (s : ThreadState) (x : Option Nat) :
    ThreadState × Option Nat :=
  match s.batch_, s.segment_.CanAllocateRaw L.sizeof_InvocationInfo with
  | some b, true =>
    let invocation_info := s.segment_.write_ptr
    let seg := s.segment_.growRecord b L.sizeof_InvocationInfo
    ({ s with
        segment_ := { seg with
          write_ptr := seg.write_ptr + L.sizeof_InvocationInfo
          segment_length := seg.segment_length + L.sizeof_InvocationInfo } },
     some invocation_info)
  | _, _ =>
    let f := if s.segment_.CanAllocate L L.sizeof_InvocationInfoBatch then (s, true)
      else FlushSegment s x
    if f.2 then
      let r := f.1.segment_.AllocateTraceRecordImpl L kInvocationInfoBatchType
        L.sizeof_InvocationInfoBatch
      ({ f.1 with segment_ := r.1, batch_ := some r.2 }, some r.2)
    else (f.1, none)

/-! ## Aggregation -/

/-- The block "Tally the new data" of `RecordInvocation`. -/
def tally (L : Layout) (info : InvocationInfo) (duration_cycles : Nat) : InvocationInfo :=
  let info := { info with
    num_calls := (info.num_calls + 1) % 2 ^ L.num_calls_bits
    cycles_sum := add64 info.cycles_sum duration_cycles }
  if duration_cycles < info.cycles_min then
    { info with cycles_min := duration_cycles }
  else if duration_cycles > info.cycles_max then
    { info with cycles_max := duration_cycles }
  else info

/-- The initialisation of a newly allocated `InvocationInfo`. -/
def firstCall (L : Layout) (caller function duration_cycles : Nat) : InvocationInfo :=
  { caller := caller, function := function,
    num_calls := 1 % 2 ^ L.num_calls_bits,
    cycles_min := duration_cycles, cycles_max := duration_cycles,
    cycles_sum := duration_cycles }

/-- The method `Profiler::ThreadState::RecordInvocation`. -/
def RecordInvocation (L : Layout) (s : ThreadState)
    (caller function duration_cycles : Nat) (x : Option Nat) : ThreadState :=
  match s.invocations_.lookup (caller, function) with
  | some it =>
    match s.segment_.readInfo it with
    | some info =>
      { s with segment_ := s.segment_.writeInfo it (tally L info duration_cycles) }
    | none => s
  | none =>
    match AllocateInvocationInfo L s x with
    | (s1, some info) =>
      { s1 with
          invocations_ := ((caller, function), info) :: s1.invocations_
          segment_ := s1.segment_.writeInfo info
            (firstCall L caller function duration_cycles) }
    | (s1, none) => s1

/-- The method `Profiler::ThreadState::UpdateOverhead`; `rdtsc` is the value
read from the cycle counter. -/
def UpdateOverhead (s : ThreadState) (entry_cycles rdtsc : Nat) : ThreadState :=
  { s with cycles_overhead_ := add64 s.cycles_overhead_ (sub64 rdtsc entry_cycles) }

/-! ## Shadow stack -/

/-- Modelled from the spec: `ShadowStack::TrimOrphansOnEntry` of `shadow_stack.h`,
the `trim_on_entry` of section 4.4: while the top entry's frame address is below
the current frame pointer, pop. -/
def TrimOrphansOnEntry (stack : List StackEntry) (entry_frame : Nat) : List StackEntry :=
  stack.dropWhile (fun e => decide (e.entry_frame < entry_frame))

/-- Modelled from the spec: `ShadowStack::TrimOrphansOnExit` of `shadow_stack.h`,
the `trim_on_exit` of section 4.4: the same rule against the stack pointer at exit. -/
def TrimOrphansOnExit (stack : List StackEntry) (stack_pointer : Nat) : List StackEntry :=
  stack.dropWhile (fun e => decide (e.entry_frame < stack_pointer))

/-- Modelled from the spec: `ShadowStack::Push` of `shadow_stack.h`, the `push`
of section 4.4: creates the new top entry, which records the address of the
entry frame and the return address found in it (the `real_return_address` of
section 4.8), and returns it with the entries below it; the caller fills in the
remaining fields. -/
def Push (stack : List StackEntry) (entry_frame : Nat) (frame : EntryFrame) :
    StackEntry × List StackEntry :=
  ({ return_address := frame.retaddr, entry_frame := entry_frame,
     caller := 0, function := 0, cycles_entry := 0 }, stack)

/-- Modelled from the spec: `ShadowStack::Pop` of `shadow_stack.h`, the `pop` of
section 4.4: removes and returns the top entry; `none` on an empty stack. -/
def Pop (stack : List StackEntry) : Option (StackEntry × List StackEntry) :=
  match stack with
  | [] => none
  | entry :: rest => some (entry, rest)

/-! ## Hooks -/

/-- The method `Profiler::ThreadState::OnFunctionEntry`.  `pexit` is the address
of the exit hook, `entry_frame` the address of the frame and `frame` its
contents; the result holds the frame contents after the hook. -/
def OnFunctionEntry (pexit : Nat) (s : ThreadState) (is_disabled : Bool)
    (entry_frame : Nat) (frame : EntryFrame) (function cycles rdtsc : Nat) :
    ThreadState × EntryFrame :=
  if is_disabled then (s, frame)
  else
    let pushed := Push (TrimOrphansOnEntry s.stack_ entry_frame) entry_frame frame
    let entry : StackEntry :=
      { pushed.1 with
        caller := frame.retaddr
        function := function
        cycles_entry := sub64 cycles s.cycles_overhead_ }
    (UpdateOverhead { s with stack_ := entry :: pushed.2 } cycles rdtsc,
     { frame with retaddr := pexit })

/-- The expression `cycles_exit - entry.cycles_entry - cycles_overhead_` of
`OnFunctionExit`, evaluated in `uint64`. -/
def cycles_executed (cycles_exit cycles_entry cycles_overhead : Nat) : Nat :=
  sub64 (sub64 cycles_exit cycles_entry) cycles_overhead

/-- The method `Profiler::ThreadState::OnFunctionExit`; the result is `none` when
the shadow stack is empty after trimming (the pop has nothing to return). -/
def OnFunctionExit (L : Layout) (s : ThreadState) (stack_pointer cycles_exit : Nat)
    (x : Option Nat) (rdtsc : Nat) : Option (ThreadState × Nat) :=
  match Pop (TrimOrphansOnExit s.stack_ stack_pointer) with
  | none => none
  | some (entry, rest) =>
    let d := cycles_executed cycles_exit entry.cycles_entry s.cycles_overhead_
    let s1 := RecordInvocation L { s with stack_ := rest } entry.caller entry.function d x
    some (UpdateOverhead s1 cycles_exit rdtsc, entry.return_address)

/-- The reason code `DLL_PROCESS_DETACH`. -/
def DLL_PROCESS_DETACH : Nat := 0

/-- The reason code `DLL_PROCESS_ATTACH`. -/
def DLL_PROCESS_ATTACH : Nat := 1

/-- The reason code `DLL_THREAD_ATTACH`. -/
def DLL_THREAD_ATTACH : Nat := 2

/-- The reason code `DLL_THREAD_DETACH`. -/
def DLL_THREAD_DETACH : Nat := 3

/-- Modelled from the spec: `ReasonToEventType` of `client_utils`, by the record
kinds of section 6: `module_attached` for a process attach, `thread_attached`
otherwise. -/
def ReasonToEventType (reason : Nat) : Nat :=
  if reason = DLL_PROCESS_ATTACH then 0x10 else 0x11

/-- The switch of `OnModuleEntry`: only module additions are logged. -/
def should_log_module (reason : Nat) : Bool :=
  reason = DLL_PROCESS_ATTACH || reason = DLL_THREAD_ATTACH

/-- Stores a module payload at an address. -/
def TraceFileSegment.writeModule (seg : TraceFileSegment) (p : Nat) (d : TraceModuleData) :
    TraceFileSegment :=
  { seg with module_data := (p, d) :: seg.module_data }

/-- The method `Profiler::ThreadState::OnModuleEntry`.  `is_disabled` is the
session state read on entry and `is_disabled2` the one read by the nested call
of `OnFunctionEntry`; `x1` and `x2` are the outcomes of the first and second
call of `FlushSegment`, when they are made.  The condition
`!CanAllocate(..) || !FlushSegment()` returns at once when the record does not
fit and otherwise flushes. -/
def OnModuleEntry (L : Layout) (pexit : Nat) (s : ThreadState)
    (is_disabled is_disabled2 : Bool) (entry_frame : Nat) (frame : EntryFrame)
    (function cycles : Nat) (image : PEImage) (x1 x2 : Option Nat) (rdtsc : Nat) :
    ThreadState × EntryFrame :=
  if is_disabled then (s, frame)
  else
    let module := frame.args0
    let reason := frame.args1
    if should_log_module reason && !(s.logged_modules_.contains module) then
      let s1 := { s with logged_modules_ := module :: s.logged_modules_ }
      if !(s1.segment_.CanAllocate L L.sizeof_TraceModuleData) then (s1, frame)
      else
        let f := FlushSegment s1 x1
        if !f.2 then (f.1, frame)
        else
          let r := f.1.segment_.AllocateTraceRecordImpl L (ReasonToEventType reason)
            L.sizeof_TraceModuleData
          let module_event : TraceModuleData :=
            { module_base_addr := module
              module_base_size := image.SizeOfImage
              module_checksum := image.CheckSum
              module_time_date_stamp := image.TimeDateStamp
              module_name := image.mapped_file_name }
          let s2 := { f.1 with segment_ := r.1.writeModule r.2 module_event }
          let s3 := (FlushSegment s2 x2).1
          OnFunctionEntry pexit s3 is_disabled2 entry_frame frame function cycles rdtsc
    else
      OnFunctionEntry pexit s is_disabled2 entry_frame frame function cycles rdtsc

/-! ## Runs of `RecordInvocation` and their invariants -/

/-- One call of `RecordInvocation`: its arguments and the outcome the session
would give to an exchange made during the call. -/
structure Invocation where
  caller : Nat
  function : Nat
  duration_cycles : Nat
  x : Option Nat
deriving DecidableEq, Repr

/-- The key an invocation is recorded under. -/
def Invocation.key (c : Invocation) : InvocationKey := (c.caller, c.function)

/-- The state after a sequence of calls of `RecordInvocation`. -/
def recordAll (L : Layout) : ThreadState → List Invocation → ThreadState
  | s, [] => s
  | s, c :: cs =>
    recordAll L (RecordInvocation L s c.caller c.function c.duration_cycles c.x) cs

/-- A call of `RecordInvocation` for `key` in state `s` reaches `FlushSegment`:
the key is not in the table, the open batch cannot grow and a new batch record
does not fit. -/
def reachesFlush (L : Layout) (s : ThreadState) (key : InvocationKey) : Bool :=
  (s.invocations_.lookup key).isNone &&
  !(s.batch_.isSome && s.segment_.CanAllocateRaw L.sizeof_InvocationInfo) &&
  !(s.segment_.CanAllocate L L.sizeof_InvocationInfoBatch)

/-- No call of the sequence reaches `FlushSegment`. -/
def NoFlush (L : Layout) : ThreadState → List Invocation → Bool
  | _, [] => true
  | s, c :: cs =>
    !(reachesFlush L s c.key) &&
    NoFlush L (RecordInvocation L s c.caller c.function c.duration_cycles c.x) cs

/-- The durations passed for `key`, in call order. -/
def durationsOf (key : InvocationKey) (cs : List Invocation) : List Nat :=
  (cs.filter (fun c => decide (c.key = key))).map (fun c => c.duration_cycles)

/-- The table only holds addresses of cells below the write pointer, and no two
entries hold the same address. -/
def TableSound (s : ThreadState) : Prop :=
  (∀ kp ∈ s.invocations_, kp.2 < s.segment_.write_ptr) ∧
  (s.invocations_.map Prod.snd).Nodup

instance (s : ThreadState) : Decidable (TableSound s) := by
  unfold TableSound; infer_instance

/-- The record `info` aggregates the durations `ds`: the call counter and the
sum are those of `ds` in the width of their fields, and `cycles_min` and
`cycles_max` are the smallest and the largest element of `ds`. -/
def Aggregates (L : Layout) (info : InvocationInfo) (ds : List Nat) : Prop :=
  info.num_calls = ds.length % 2 ^ L.num_calls_bits ∧
  info.cycles_sum = ds.sum % U64 ∧
  (info.cycles_min ∈ ds ∧ ∀ d ∈ ds, info.cycles_min ≤ d) ∧
  (info.cycles_max ∈ ds ∧ ∀ d ∈ ds, d ≤ info.cycles_max)

/-- The table entry of `key` in state `s`, read through its pointer. -/
def infoOf (s : ThreadState) (key : InvocationKey) : Option InvocationInfo :=
  match s.invocations_.lookup key with
  | some p => s.segment_.readInfo p
  | none => none

/-- The key `key` has been recorded with exactly the durations `acc` since it
was bound: it is absent when `acc` is empty, and otherwise its record
aggregates `acc`. -/
def Tracks (L : Layout) (s : ThreadState) (key : InvocationKey) (acc : List Nat) : Prop :=
  match acc with
  | [] => s.invocations_.lookup key = none
  | _ :: _ => ∃ p info, s.invocations_.lookup key = some p ∧
      s.segment_.readInfo p = some info ∧
      info.caller = key.1 ∧ info.function = key.2 ∧ Aggregates L info acc

/-- The state a successful flush followed by the placement of a new batch record
leaves: the old segment is handed to the session, the table is cleared, and the
new buffer of `capacity` bytes starts with the header of an
`InvocationInfoBatch`, whose payload is the open batch. -/
def afterRollover (L : Layout) (s : ThreadState) (capacity : Nat) : ThreadState :=
  { s with
      batch_ := some L.sizeof_RecordPrefix
      invocations_ := []
      exchange_calls := s.exchange_calls + 1
      exchanged := s.segment_ :: s.exchanged
      segment_ :=
        { write_ptr := L.sizeof_RecordPrefix + L.sizeof_InvocationInfoBatch
          end_ptr := capacity
          segment_length := L.sizeof_RecordPrefix + L.sizeof_InvocationInfoBatch
          headers := [(L.sizeof_RecordPrefix,
            { type := kInvocationInfoBatchType, size := L.sizeof_InvocationInfoBatch })]
          module_data := []
          invocation_info := [] } }

/-- The state a failed flush leaves: table and open batch are cleared, the
segment stays. -/
def afterFailedFlush (s : ThreadState) : ThreadState :=
  { s with batch_ := none, invocations_ := [], exchange_calls := s.exchange_calls + 1 }

/-- Every record reachable through the table aggregates a non-empty selection,
in call order, of the durations passed for its key in the calls `hist` made so
far, and the table is sound. -/
def History (L : Layout) (s : ThreadState) (hist : List Invocation) : Prop :=
  TableSound s ∧
  ∀ key p info, (key, p) ∈ s.invocations_ → s.segment_.readInfo p = some info →
    ∃ ds, ds ≠ [] ∧ Aggregates L info ds ∧ ds.Sublist (durationsOf key hist)

/-! ## Example states and calls of `RecordInvocation` -/

/-- A thread state right after the session handed out a buffer of `capacity`
bytes: nothing on the shadow stack, nothing recorded. -/
def initialState (capacity : Nat) : ThreadState :=
  { cycles_overhead_ := 0, stack_ := [], invocations_ := [],
    segment_ := TraceFileSegment.fresh capacity, batch_ := none,
    logged_modules_ := [], exchanged := [], exchange_calls := 0 }

/-- The loop of scenario S2 with a call of another function in between: the
call site `0x401000` calls `0x402000` three times, with 10, 20 and 15 cycles. -/
def loopCalls : List Invocation :=
  [ { caller := 0x401000, function := 0x402000, duration_cycles := 10, x := none },
    { caller := 0x401000, function := 0x402000, duration_cycles := 20, x := none },
    { caller := 0x401008, function := 0x403000, duration_cycles := 99, x := none },
    { caller := 0x401000, function := 0x402000, duration_cycles := 15, x := none } ]

/-- A call that takes no measurable time. -/
def quickCall : Invocation :=
  { caller := 0x401000, function := 0x402000, duration_cycles := 0, x := none }

/-- Two calls of one key whose duration is the `uint64` value `2^64 - 5`, as
`OnFunctionExit` computes it when the overhead exceeds the elapsed cycles by 5. -/
def wrappedCalls : List Invocation :=
  [ { caller := 0x401000, function := 0x402000,
      duration_cycles := 18446744073709551611, x := none },
    { caller := 0x401000, function := 0x402000,
      duration_cycles := 18446744073709551611, x := none } ]

/-! ## Durations -/

/-- The duration as section 4.8 of the specification words it:
`saturating_sub(cycles_now − frame.entry_cycles, cycles_overhead)`, clamped at
zero. -/
def spec_duration (cycles_exit cycles_entry cycles_overhead : Nat) : Nat :=
  sub64 cycles_exit cycles_entry - cycles_overhead

/-- Subtraction of `uint64` values spelled out: the difference when it is not
negative, and the difference plus `2^64` otherwise. -/
def wrapping_sub (a b : Nat) : Nat :=
  if b ≤ a then a - b else a + 2 ^ 64 - b

/-- The frame an instrumented function is entered with in the examples: its
return address is `0x401000`. -/
def sampleFrame : EntryFrame := { retaddr := 0x401000, args0 := 0, args1 := 0 }

/-- The address of the exit hook in the examples. -/
def samplePexit : Nat := 0x500000

/-- The state after one entry hook: the function `0x402000` is entered at cycle
100 with its frame at `0x2000`, and the hook itself takes 10 cycles. -/
def enteredState : ThreadState :=
  (OnFunctionEntry samplePexit (initialState 4096) false 0x2000 sampleFrame 0x402000 100 110).1

/-! ## Sequences of hook calls -/

/-- One call of a function hook with everything it reads from outside the
thread state. -/
inductive HookCall where
  /-- A call of `OnFunctionEntry`. -/
  | entry (is_disabled : Bool) (entry_frame : Nat) (frame : EntryFrame)
      (function cycles rdtsc : Nat)
  /-- A call of `OnFunctionExit`. -/
  | exit (stack_pointer cycles_exit : Nat) (x : Option Nat) (rdtsc : Nat)
deriving DecidableEq, Repr

/-- The state after one hook call; `none` when an exit finds nothing to pop. -/
def hookStep (L : Layout) (pexit : Nat) (s : ThreadState) : HookCall → Option ThreadState
  | .entry is_disabled entry_frame frame function cycles rdtsc =>
    some (OnFunctionEntry pexit s is_disabled entry_frame frame function cycles rdtsc).1
  | .exit stack_pointer cycles_exit x rdtsc =>
    Option.map Prod.fst (OnFunctionExit L s stack_pointer cycles_exit x rdtsc)

/-- The state after a sequence of hook calls. -/
def runHooks (L : Layout) (pexit : Nat) : ThreadState → List HookCall → Option ThreadState
  | s, [] => some s
  | s, h :: hs =>
    match hookStep L pexit s h with
    | none => none
    | some s1 => runHooks L pexit s1 hs

/-- The number of entry calls of a sequence. -/
def entries : List HookCall → Nat
  | [] => 0
  | .entry _ _ _ _ _ _ :: hs => entries hs + 1
  | .exit _ _ _ _ :: hs => entries hs

/-- The number of exit calls of a sequence. -/
def exits : List HookCall → Nat
  | [] => 0
  | .entry _ _ _ _ _ _ :: hs => exits hs
  | .exit _ _ _ _ :: hs => exits hs + 1

/-- The sequence is properly nested above `depth` open calls: no exit comes
without an open entry to match it. -/
def nestedFrom : Nat → List HookCall → Bool
  | _, [] => true
  | depth, .entry _ _ _ _ _ _ :: hs => nestedFrom (depth + 1) hs
  | depth, .exit _ _ _ _ :: hs => decide (0 < depth) && nestedFrom (depth - 1) hs

/-- Every entry call of the sequence finds the session enabled. -/
def sessionEnabled : List HookCall → Bool
  | [] => true
  | .entry is_disabled _ _ _ _ _ :: hs => !is_disabled && sessionEnabled hs
  | .exit _ _ _ _ :: hs => sessionEnabled hs

/-- The hook call trims no orphan from the shadow stack of `s`: its frame or
stack pointer is consistent with the frames on the stack. -/
def trimsNothing (s : ThreadState) : HookCall → Bool
  | .entry _ entry_frame _ _ _ _ => decide (TrimOrphansOnEntry s.stack_ entry_frame = s.stack_)
  | .exit stack_pointer _ _ _ => decide (TrimOrphansOnExit s.stack_ stack_pointer = s.stack_)

/-- No call of the sequence trims an orphan (there is no non-local exit). -/
def Consistent (L : Layout) (pexit : Nat) : ThreadState → List HookCall → Bool
  | _, [] => true
  | s, h :: hs =>
    trimsNothing s h &&
    match hookStep L pexit s h with
    | none => true
    | some s1 => Consistent L pexit s1 hs

/-- A nested call inside the function entered in `enteredState`: the function
`0x403000` is entered with its frame at `0x1f00` and left again; the exchange
offered to its exit hook fails.  The exit passes the frame address itself, the
highest stack pointer for which the specified trimming keeps the frame. -/
def nestedCalls : List HookCall :=
  [ .entry false 0x1f00 { retaddr := 0x402010, args0 := 0, args1 := 0 } 0x403000 120 125,
    .exit 0x1f00 150 none 155 ]

/-- Scenario S1 with exits that pass the frame address itself: `f` at
`0x402000` is entered, calls `g` at `0x403000`, `g` returns, `f` returns. -/
def twoNestedCalls : List HookCall :=
  [ .entry false 0x2000 sampleFrame 0x402000 100 110,
    .entry false 0x1f00 { retaddr := 0x402010, args0 := 0, args1 := 0 } 0x403000 200 210,
    .exit 0x1f00 300 none 310,
    .exit 0x2000 400 none 410 ]

/-! ## Module events -/

/-- One call of `OnModuleEntry` with everything it reads from outside the
thread state. -/
structure ModuleCall where
  is_disabled : Bool
  is_disabled2 : Bool
  entry_frame : Nat
  frame : EntryFrame
  function : Nat
  cycles : Nat
  image : PEImage
  x1 : Option Nat
  x2 : Option Nat
  rdtsc : Nat
deriving DecidableEq, Repr

/-- The state after one call of `OnModuleEntry`. -/
def moduleStep (L : Layout) (pexit : Nat) (s : ThreadState) (c : ModuleCall) : ThreadState :=
  (OnModuleEntry L pexit s c.is_disabled c.is_disabled2 c.entry_frame c.frame c.function
    c.cycles c.image c.x1 c.x2 c.rdtsc).1

/-- The state after a sequence of calls of `OnModuleEntry`. -/
def runModuleCalls (L : Layout) (pexit : Nat) : ThreadState → List ModuleCall → ThreadState
  | s, [] => s
  | s, c :: cs => runModuleCalls L pexit (moduleStep L pexit s c) cs

/-- The number of module records for the module handle `M` in a segment. -/
def moduleRecordsIn (M : Nat) (seg : TraceFileSegment) : Nat :=
  (seg.module_data.filter (fun r => decide (r.2.module_base_addr = M))).length

/-- The number of module records for `M` the thread has written: those in the
segments handed to the session and those in the segment it still holds. -/
def moduleRecords (s : ThreadState) (M : Nat) : Nat :=
  moduleRecordsIn M s.segment_ + (s.exchanged.map (moduleRecordsIn M)).sum

/-- The payload `OnModuleEntry` writes for a module. -/
def moduleEvent (module : Nat) (image : PEImage) : TraceModuleData :=
  { module_base_addr := module
    module_base_size := image.SizeOfImage
    module_checksum := image.CheckSum
    module_time_date_stamp := image.TimeDateStamp
    module_name := image.mapped_file_name }

/-- The state of `OnModuleEntry` after the first flush has succeeded and the
module record has been placed in the new buffer of `capacity` bytes. -/
def afterModuleRecord (L : Layout) (s : ThreadState) (capacity reason module : Nat)
    (image : PEImage) : ThreadState :=
  { s with
      logged_modules_ := module :: s.logged_modules_
      batch_ := none
      invocations_ := []
      exchange_calls := s.exchange_calls + 1
      exchanged := s.segment_ :: s.exchanged
      segment_ :=
        { write_ptr := L.sizeof_RecordPrefix + L.sizeof_TraceModuleData
          end_ptr := capacity
          segment_length := L.sizeof_RecordPrefix + L.sizeof_TraceModuleData
          headers := [(L.sizeof_RecordPrefix,
            { type := ReasonToEventType reason, size := L.sizeof_TraceModuleData })]
          module_data := [(L.sizeof_RecordPrefix, moduleEvent module image)]
          invocation_info := [] } }

/-- The frame of a `DllMain` call for the module at `0x10000000` with reason
`DLL_PROCESS_ATTACH`. -/
def attachFrame : EntryFrame :=
  { retaddr := 0x7c901000, args0 := 0x10000000, args1 := DLL_PROCESS_ATTACH }

/-- The image data of the example module. -/
def sampleImage : PEImage :=
  { SizeOfImage := 0x20000, CheckSum := 0xabcd, TimeDateStamp := 0x4e000000,
    mapped_file_name := 1 }

/-- Four calls of four different functions from one call site. -/
def fourCalls : List Invocation :=
  [ { caller := 0x401000, function := 0x402000, duration_cycles := 10, x := none },
    { caller := 0x401000, function := 0x403000, duration_cycles := 11, x := none },
    { caller := 0x401000, function := 0x404000, duration_cycles := 12, x := none },
    { caller := 0x401000, function := 0x405000, duration_cycles := 13, x := none } ]

/-- A thread whose 1200-byte buffer holds a batch of four invocation records:
176 bytes are used and 1024 are free. -/
def busyState : ThreadState := recordAll layout32 (initialState 1200) fourCalls

/-! ## A full segment -/

/-- A thread whose 176-byte buffer is exactly filled by a batch of four
invocation records (16 bytes of header and four cells of 40 bytes). -/
def fullState : ThreadState := recordAll layout32 (initialState 176) fourCalls

/-- A call of a fifth function from the same call site, with an exchange that
hands out a buffer of 176 bytes. -/
def fifthCall : Invocation :=
  { caller := 0x401000, function := 0x406000, duration_cycles := 14, x := some 176 }

/-! ## Runs of the thread state -/

/-- One step in the life of a thread state: a call of one of the three hooks or
a call of `FlushSegment`. -/
inductive ThreadEvent where
  /-- A call of `OnModuleEntry`. -/
  | moduleEntry (c : ModuleCall)
  /-- A call of `OnFunctionEntry` or of `OnFunctionExit`. -/
  | function (h : HookCall)
  /-- A call of `FlushSegment` with the outcome of its exchange. -/
  | flush (x : Option Nat)
deriving DecidableEq, Repr

/-- The state after one event; `none` when an exit hook finds nothing to pop. -/
def eventStep (L : Layout) (pexit : Nat) (s : ThreadState) : ThreadEvent → Option ThreadState
  | .moduleEntry c => some (moduleStep L pexit s c)
  | .function h => hookStep L pexit s h
  | .flush x => some (FlushSegment s x).1

/-- The state after a sequence of events. -/
def runEvents (L : Layout) (pexit : Nat) : ThreadState → List ThreadEvent → Option ThreadState
  | s, [] => some s
  | s, e :: es =>
    match eventStep L pexit s e with
    | none => none
    | some s1 => runEvents L pexit s1 es

/-- A thread state as the constructor leaves it: `batch_` is `NULL` and the
shadow stack, the invocation table and the module ledger are empty.  The
constructor does not initialise `cycles_overhead_`, and the segment is whatever
the session has handed out; both are left open. -/
def Fresh (s : ThreadState) : Prop :=
  s.batch_ = none ∧ s.stack_ = [] ∧ s.invocations_ = [] ∧ s.logged_modules_ = []

instance (s : ThreadState) : Decidable (Fresh s) := by
  unfold Fresh; infer_instance

/-- The address of cell `i` of the batch whose payload starts at `b`: cell 0 is
`&batch_->invocations[0]`, the payload itself; the cells that
`AllocateInvocationInfo` appends follow the `InvocationInfoBatch` back to back. -/
def slotAddress (L : Layout) (b : Nat) : Nat → Nat
  | 0 => b
  | i + 1 => b + L.sizeof_InvocationInfoBatch + i * L.sizeof_InvocationInfo

/-- The number of `InvocationInfo` cells in a batch record with the given
prefix: the one of the `InvocationInfoBatch` and one for every further
`sizeof(InvocationInfo)` bytes of payload. -/
def batchSlots (L : Layout) (h : RecordPrefix) : Nat :=
  (h.size - L.sizeof_InvocationInfoBatch) / L.sizeof_InvocationInfo + 1

/-- The coalescing invariant on a table, a segment and an open-batch pointer:
without an open batch the table is empty; with the open batch at `b` the table
has `n + 1` entries for some `n`, the prefix of the batch counts `n + 1` cells,
the batch ends at the write pointer, the addresses in the table are the cells
`n, .., 0` of the batch (newest binding first), no key is bound twice, and the
cell of every key holds that key as its `(caller, function)`. -/
def CoalescedOn (L : Layout) (table : List (InvocationKey × Nat)) (seg : TraceFileSegment) :
    Option Nat → Prop
  | none => table = []
  | some b => ∃ n, table.length = n + 1 ∧
      seg.headers.lookup b = some
        { type := kInvocationInfoBatchType,
          size := L.sizeof_InvocationInfoBatch + n * L.sizeof_InvocationInfo } ∧
      seg.write_ptr = b + L.sizeof_InvocationInfoBatch + n * L.sizeof_InvocationInfo ∧
      table.map Prod.snd = ((List.range (n + 1)).map (slotAddress L b)).reverse ∧
      (table.map Prod.fst).Nodup ∧
      ∀ kp ∈ table, ∃ info, seg.readInfo kp.2 = some info ∧
        info.caller = kp.1.1 ∧ info.function = kp.1.2

/-- The coalescing invariant of a thread state, together with the soundness of
its table. -/
def Coalesced (L : Layout) (s : ThreadState) : Prop :=
  TableSound s ∧ CoalescedOn L s.invocations_ s.segment_ s.batch_

/-- The `DllMain` call of the module at `0x10000000` for `DLL_PROCESS_ATTACH`,
with exchanges that hand out buffers of 4096 bytes. -/
def sampleAttach : ModuleCall :=
  { is_disabled := false, is_disabled2 := false, entry_frame := 0x3000,
    frame := attachFrame, function := 0x10001000, cycles := 10, image := sampleImage,
    x1 := some 4096, x2 := some 4096, rdtsc := 20 }

/-- A morning in the life of a thread: the module at `0x10000000` attaches, `f`
at `0x402000` is entered and calls `g` at `0x403000` twice from one call site
and `h` at `0x404000` once, and every call returns. -/
def sampleEvents : List ThreadEvent :=
  [ .moduleEntry sampleAttach,
    .function (.exit 0x3000 30 none 35),
    .function (.entry false 0x2000 sampleFrame 0x402000 100 110),
    .function (.entry false 0x1f00 { retaddr := 0x402010, args0 := 0, args1 := 0 }
      0x403000 200 210),
    .function (.exit 0x1f00 300 none 310),
    .function (.entry false 0x1f00 { retaddr := 0x402010, args0 := 0, args1 := 0 }
      0x403000 400 410),
    .function (.exit 0x1f00 500 none 510),
    .function (.entry false 0x1f00 { retaddr := 0x402020, args0 := 0, args1 := 0 }
      0x404000 600 610),
    .function (.exit 0x1f00 700 none 710),
    .function (.exit 0x2000 800 none 810) ]

/-- The state after `sampleEvents`, started in `initialState 4096`. -/
def sampleFinalState : ThreadState :=
  (runEvents layout32 samplePexit (initialState 4096) sampleEvents).getD (initialState 4096)

/-! ## The durations a record aggregates -/

/-- The durations recorded for `key` since `key` was last bound in the table,
after the calls `cs` made in state `s`, when `acc` are those durations in `s`
(none when `key` is not bound).  A call for `key` adds its duration when `key`
is bound, starts afresh with its own duration when the call binds `key`, and
leaves nothing when the sample is dropped; a call for another key leaves the
durations as they are unless it clears the table, and with it the binding of
`key`. -/
def boundDurations (L : Layout) (key : InvocationKey) :
    ThreadState → List Invocation → List Nat → List Nat
  | _, [], acc => acc
  | s, c :: cs, acc =>
    boundDurations L key (RecordInvocation L s c.caller c.function c.duration_cycles c.x) cs
      (if c.key = key then
        if (s.invocations_.lookup key).isSome then acc ++ [c.duration_cycles]
        else if ((RecordInvocation L s c.caller c.function c.duration_cycles
            c.x).invocations_.lookup key).isSome then [c.duration_cycles]
        else []
      else if ((RecordInvocation L s c.caller c.function c.duration_cycles
          c.x).invocations_.lookup key).isSome then acc
      else [])

/-- A key recorded on both sides of a rollover: in a buffer with room for one
record, the key `(0x401000, 0x402000)` is recorded with `2^63` cycles, a call of
another function rolls the segment over, and the key is recorded with `2^63`
cycles again, which rolls the segment over once more. -/
def rolloverCalls : List Invocation :=
  [ { caller := 0x401000, function := 0x402000,
      duration_cycles := 9223372036854775808, x := some 56 },
    { caller := 0x401000, function := 0x403000, duration_cycles := 5, x := some 56 },
    { caller := 0x401000, function := 0x402000,
      duration_cycles := 9223372036854775808, x := some 56 } ]

/-! ## Calls as the thunks make them -/

theorem lookup_cons_self {α β : Type} [BEq α] [LawfulBEq α] (a : α) (b : β)
    (es : List (α × β)) : List.lookup a ((a, b) :: es) = some b := by
  simp [List.lookup_cons]

theorem lookup_cons_ne {α β : Type} [BEq α] [LawfulBEq α] (a k : α) (b : β)
    (es : List (α × β)) (h : a ≠ k) : List.lookup a ((k, b) :: es) = List.lookup a es := by
  have hk : (a == k) = false := by simpa using h
  simp [List.lookup_cons, hk]

theorem lookup_mem {α β : Type} [BEq α] [LawfulBEq α] (a : α) (b : β) :
    ∀ es : List (α × β), List.lookup a es = some b → (a, b) ∈ es
  | [], h => by simp at h
  | (k, v) :: es, h => by
    by_cases hk : a = k
    · subst hk
      rw [lookup_cons_self] at h
      cases h
      exact List.mem_cons_self _ _
    · rw [lookup_cons_ne a k v es hk] at h
      exact List.mem_cons_of_mem _ (lookup_mem a b es h)

theorem lookup_none_not_mem_keys {α β : Type} [BEq α] [LawfulBEq α] (a : α) :
    ∀ es : List (α × β), List.lookup a es = none → a ∉ es.map Prod.fst
  | [], _ => by simp
  | (k, v) :: es, h => by
    by_cases hk : a = k
    · subst hk
      rw [lookup_cons_self] at h
      cases h
    · rw [lookup_cons_ne a k v es hk] at h
      rw [List.map_cons, List.mem_cons, not_or]
      exact ⟨hk, lookup_none_not_mem_keys a es h⟩

theorem growRecord_write_ptr (seg : TraceFileSegment) (b n : Nat) :
    (seg.growRecord b n).write_ptr = seg.write_ptr := by
  unfold TraceFileSegment.growRecord
  split <;> rfl

theorem growRecord_invocation_info (seg : TraceFileSegment) (b n : Nat) :
    (seg.growRecord b n).invocation_info = seg.invocation_info := by
  unfold TraceFileSegment.growRecord
  split <;> rfl

theorem growRecord_end_ptr (seg : TraceFileSegment) (b n : Nat) :
    (seg.growRecord b n).end_ptr = seg.end_ptr := by
  unfold TraceFileSegment.growRecord
  split <;> rfl

theorem growRecord_module_data (seg : TraceFileSegment) (b n : Nat) :
    (seg.growRecord b n).module_data = seg.module_data := by
  unfold TraceFileSegment.growRecord
  split <;> rfl

/-- What `AllocateInvocationInfo` does when no flush is needed: it returns a
cell at or above the old write pointer and below the new one, and leaves the
table and the cells written so far alone. -/
theorem alloc_without_flush (L : Layout) (hL : L.Valid) (s : ThreadState) (x : Option Nat)
    (h : ((s.batch_.isSome && s.segment_.CanAllocateRaw L.sizeof_InvocationInfo) ||
      s.segment_.CanAllocate L L.sizeof_InvocationInfoBatch) = true) :
    ∃ s1 p, AllocateInvocationInfo L s x = (s1, some p) ∧
      s1.invocations_ = s.invocations_ ∧
      s1.segment_.invocation_info = s.segment_.invocation_info ∧
      s.segment_.write_ptr ≤ p ∧ p < s1.segment_.write_ptr ∧
      s1.exchanged = s.exchanged ∧ s1.exchange_calls = s.exchange_calls := by
  obtain ⟨hle, hpos, -⟩ := hL
  unfold AllocateInvocationInfo
  cases hb : s.batch_ with
  | none =>
    simp only [hb, Option.isSome_none, Bool.false_and, Bool.false_or] at h
    simp only [h, if_true]
    refine ⟨_, _, rfl, rfl, rfl, ?_, ?_, rfl, rfl⟩
    · simp [TraceFileSegment.AllocateTraceRecordImpl]
    · simp only [TraceFileSegment.AllocateTraceRecordImpl]
      omega
  | some b =>
    cases hr : s.segment_.CanAllocateRaw L.sizeof_InvocationInfo with
    | true =>
      refine ⟨_, _, rfl, rfl, ?_, ?_, ?_, rfl, rfl⟩
      · simp [growRecord_invocation_info]
      · exact Nat.le_refl _
      · simp only [growRecord_write_ptr]
        omega
    | false =>
      simp only [hb, hr, Option.isSome_some, Bool.and_false, Bool.false_or] at h
      simp only [h, if_true]
      refine ⟨_, _, rfl, rfl, rfl, ?_, ?_, rfl, rfl⟩
      · simp [TraceFileSegment.AllocateTraceRecordImpl]
      · simp only [TraceFileSegment.AllocateTraceRecordImpl]
        omega

/-! ## The paths of `RecordInvocation` that make no flush -/

theorem RecordInvocation_present (L : Layout) (s : ThreadState) (caller function d : Nat)
    (x : Option Nat) (it : Nat) (info : InvocationInfo)
    (h1 : s.invocations_.lookup (caller, function) = some it)
    (h2 : s.segment_.readInfo it = some info) :
    RecordInvocation L s caller function d x =
      { s with segment_ := s.segment_.writeInfo it (tally L info d) } := by
  simp [RecordInvocation, h1, h2]

theorem RecordInvocation_dangling (L : Layout) (s : ThreadState) (caller function d : Nat)
    (x : Option Nat) (it : Nat)
    (h1 : s.invocations_.lookup (caller, function) = some it)
    (h2 : s.segment_.readInfo it = none) :
    RecordInvocation L s caller function d x = s := by
  simp [RecordInvocation, h1, h2]

theorem RecordInvocation_absent (L : Layout) (hL : L.Valid) (s : ThreadState)
    (caller function d : Nat) (x : Option Nat)
    (h1 : s.invocations_.lookup (caller, function) = none)
    (h2 : reachesFlush L s (caller, function) = false) :
    ∃ p, s.segment_.write_ptr ≤ p ∧
      p < (RecordInvocation L s caller function d x).segment_.write_ptr ∧
      (RecordInvocation L s caller function d x).invocations_ =
        ((caller, function), p) :: s.invocations_ ∧
      (RecordInvocation L s caller function d x).segment_.invocation_info =
        (p, firstCall L caller function d) :: s.segment_.invocation_info ∧
      (RecordInvocation L s caller function d x).exchanged = s.exchanged ∧
      (RecordInvocation L s caller function d x).exchange_calls = s.exchange_calls := by
  have h : ((s.batch_.isSome && s.segment_.CanAllocateRaw L.sizeof_InvocationInfo) ||
      s.segment_.CanAllocate L L.sizeof_InvocationInfoBatch) = true := by
    simp only [reachesFlush, h1, Option.isNone_none, Bool.true_and] at h2
    cases hA : (s.batch_.isSome && s.segment_.CanAllocateRaw L.sizeof_InvocationInfo) <;>
      cases hB : s.segment_.CanAllocate L L.sizeof_InvocationInfoBatch <;>
      simp [hA, hB] at h2 ⊢
  obtain ⟨s1, p, ha, hi, hm, hle, hlt, he, hc⟩ := alloc_without_flush L hL s x h
  refine ⟨p, hle, ?_, ?_, ?_, ?_, ?_⟩ <;>
    simp [RecordInvocation, h1, ha, TraceFileSegment.writeInfo, hi, hm, hlt, he, hc]

theorem nodup_snd_ne {α : Type} :
    ∀ (l : List (α × Nat)) (k1 k2 : α) (p1 p2 : Nat), (l.map Prod.snd).Nodup →
      (k1, p1) ∈ l → (k2, p2) ∈ l → k1 ≠ k2 → p1 ≠ p2
  | [], _, _, _, _, _, h1, _, _ => by simp at h1
  | (k, p) :: l, k1, k2, p1, p2, hn, h1, h2, hne => by
    simp only [List.map_cons, List.nodup_cons, List.mem_map, not_exists, not_and] at hn
    rcases List.mem_cons.1 h1 with e1 | m1 <;> rcases List.mem_cons.1 h2 with e2 | m2
    · exact absurd (by rw [Prod.mk.injEq] at e1 e2; rw [e1.1, e2.1]) hne
    · rw [Prod.mk.injEq] at e1
      intro hp
      exact hn.1 (k2, p2) m2 (by rw [← e1.2, hp])
    · rw [Prod.mk.injEq] at e2
      intro hp
      exact hn.1 (k1, p1) m1 (by rw [← e2.2, hp])
    · exact nodup_snd_ne l k1 k2 p1 p2 hn.2 m1 m2 hne

theorem Aggregates_firstCall (L : Layout) (caller function d : Nat) (hd : d < U64) :
    Aggregates L (firstCall L caller function d) [d] := by
  refine ⟨by simp [firstCall], ?_, ?_, ?_⟩
  · simp [firstCall, Nat.mod_eq_of_lt hd]
  · simp [firstCall]
  · simp [firstCall]

theorem Aggregates_tally (L : Layout) (info : InvocationInfo) (ds : List Nat) (d : Nat)
    (h : Aggregates L info ds) : Aggregates L (tally L info d) (ds ++ [d]) := by
  obtain ⟨hn, hs, ⟨hmin, hlo⟩, ⟨hmax, hhi⟩⟩ := h
  have hmm : info.cycles_min ≤ info.cycles_max := hhi _ hmin
  have hcalls : (tally L info d).num_calls = (ds ++ [d]).length % 2 ^ L.num_calls_bits := by
    have : (tally L info d).num_calls = (info.num_calls + 1) % 2 ^ L.num_calls_bits := by
      unfold tally; dsimp only; split_ifs <;> rfl
    rw [this, hn, List.length_append, List.length_singleton, Nat.add_mod, Nat.mod_mod,
      ← Nat.add_mod]
  have hsum : (tally L info d).cycles_sum = (ds ++ [d]).sum % U64 := by
    have : (tally L info d).cycles_sum = add64 info.cycles_sum d := by
      unfold tally; dsimp only; split_ifs <;> rfl
    rw [this, hs, add64, List.sum_append, List.sum_singleton, Nat.add_mod, Nat.mod_mod,
      ← Nat.add_mod]
  have hmin_eq : (tally L info d).cycles_min =
      if d < info.cycles_min then d else info.cycles_min := by
    unfold tally; dsimp only; split_ifs <;> rfl
  have hmax_eq : (tally L info d).cycles_max =
      if d < info.cycles_min then info.cycles_max
      else if d > info.cycles_max then d else info.cycles_max := by
    unfold tally; dsimp only; split_ifs <;> rfl
  refine ⟨hcalls, hsum, ?_, ?_⟩
  · rw [hmin_eq]
    split_ifs with h1
    · refine ⟨by simp, fun e he => ?_⟩
      rcases List.mem_append.1 he with he | he
      · exact Nat.le_of_lt (Nat.lt_of_lt_of_le h1 (hlo e he))
      · rw [List.mem_singleton] at he; omega
    · refine ⟨List.mem_append_left _ hmin, fun e he => ?_⟩
      rcases List.mem_append.1 he with he | he
      · exact hlo e he
      · rw [List.mem_singleton] at he; omega
  · rw [hmax_eq]
    split_ifs with h1 h2
    · refine ⟨List.mem_append_left _ hmax, fun e he => ?_⟩
      rcases List.mem_append.1 he with he | he
      · exact hhi e he
      · rw [List.mem_singleton] at he; omega
    · refine ⟨by simp, fun e he => ?_⟩
      rcases List.mem_append.1 he with he | he
      · exact Nat.le_of_lt (Nat.lt_of_le_of_lt (hhi e he) h2)
      · rw [List.mem_singleton] at he; omega
    · refine ⟨List.mem_append_left _ hmax, fun e he => ?_⟩
      rcases List.mem_append.1 he with he | he
      · exact hhi e he
      · rw [List.mem_singleton] at he; omega

theorem tally_caller (L : Layout) (info : InvocationInfo) (d : Nat) :
    (tally L info d).caller = info.caller ∧ (tally L info d).function = info.function := by
  unfold tally; dsimp only; split_ifs <;> exact ⟨rfl, rfl⟩

theorem durationsOf_single_self (c : Invocation) :
    durationsOf c.key [c] = [c.duration_cycles] := by
  simp [durationsOf]

theorem durationsOf_single_ne (c : Invocation) (key : InvocationKey) (h : c.key ≠ key) :
    durationsOf key [c] = [] := by
  simp [durationsOf, h]

theorem durationsOf_cons (key : InvocationKey) (c : Invocation) (cs : List Invocation) :
    durationsOf key (c :: cs) = durationsOf key [c] ++ durationsOf key cs := by
  by_cases h : c.key = key <;> simp [durationsOf, List.filter_cons, h]

theorem Tracks_nil (L : Layout) (s : ThreadState) (key : InvocationKey) :
    Tracks L s key [] ↔ s.invocations_.lookup key = none := Iff.rfl

theorem Tracks_cons (L : Layout) (s : ThreadState) (key : InvocationKey) (a : Nat)
    (t : List Nat) :
    Tracks L s key (a :: t) ↔ ∃ p info, s.invocations_.lookup key = some p ∧
      s.segment_.readInfo p = some info ∧
      info.caller = key.1 ∧ info.function = key.2 ∧ Aggregates L info (a :: t) := Iff.rfl

/-- One call of `RecordInvocation` that does not reach `FlushSegment` keeps the
table sound and adds its duration to the record of its own key only. -/
theorem record_step (L : Layout) (hL : L.Valid) (s : ThreadState) (hs : TableSound s)
    (c : Invocation) (hd : c.duration_cycles < U64)
    (hnf : reachesFlush L s c.key = false) (key : InvocationKey) (acc : List Nat)
    (ht : Tracks L s key acc) :
    TableSound (RecordInvocation L s c.caller c.function c.duration_cycles c.x) ∧
    Tracks L (RecordInvocation L s c.caller c.function c.duration_cycles c.x) key
      (acc ++ durationsOf key [c]) := by
  have hkey : c.key = (c.caller, c.function) := rfl
  cases hlk : s.invocations_.lookup (c.caller, c.function) with
  | some it =>
    cases hr : s.segment_.readInfo it with
    | none =>
      rw [RecordInvocation_dangling L s _ _ _ _ it hlk hr]
      refine ⟨hs, ?_⟩
      by_cases hk : c.key = key
      · subst hk
        cases acc with
        | nil => rw [Tracks_nil, hkey, hlk] at ht; cases ht
        | cons a t =>
          obtain ⟨p, info, h1, h2, -⟩ := (Tracks_cons L s _ a t).1 ht
          rw [hkey, hlk] at h1
          cases h1
          rw [hr] at h2
          cases h2
      · rw [durationsOf_single_ne c key hk, List.append_nil]
        exact ht
    | some info =>
      rw [RecordInvocation_present L s _ _ _ _ it info hlk hr]
      refine ⟨by simpa [TableSound, TraceFileSegment.writeInfo] using hs, ?_⟩
      by_cases hk : c.key = key
      · subst hk
        cases acc with
        | nil => rw [Tracks_nil, hkey, hlk] at ht; cases ht
        | cons a t =>
          obtain ⟨p, info0, h1, h2, hc, hf, hagg⟩ := (Tracks_cons L s _ a t).1 ht
          rw [hkey, hlk] at h1
          cases h1
          rw [hr] at h2
          cases h2
          rw [durationsOf_single_self, List.cons_append, Tracks_cons]
          refine ⟨it, tally L info c.duration_cycles, hlk, ?_, ?_, ?_, ?_⟩
          · simp [TraceFileSegment.readInfo, TraceFileSegment.writeInfo, lookup_cons_self]
          · rw [(tally_caller L info _).1]; exact hc
          · rw [(tally_caller L info _).2]; exact hf
          · exact Aggregates_tally L info (a :: t) _ hagg
      · rw [durationsOf_single_ne c key hk, List.append_nil]
        cases acc with
        | nil => exact ht
        | cons a t =>
          obtain ⟨p, info0, h1, h2, hc, hf, hagg⟩ := (Tracks_cons L s _ a t).1 ht
          have hne : p ≠ it :=
            nodup_snd_ne s.invocations_ key (c.caller, c.function) p it hs.2
              (lookup_mem _ _ _ h1) (lookup_mem _ _ _ hlk) (fun e => hk (by rw [hkey, e]))
          rw [Tracks_cons]
          refine ⟨p, info0, h1, ?_, hc, hf, hagg⟩
          simp only [TraceFileSegment.readInfo, TraceFileSegment.writeInfo]
          rw [lookup_cons_ne p it _ _ hne]
          exact h2
  | none =>
    have hnf2 : reachesFlush L s (c.caller, c.function) = false := hnf
    obtain ⟨p, hle, hlt, htab, hmem, -, -⟩ :=
      RecordInvocation_absent L hL s c.caller c.function c.duration_cycles c.x hlk hnf2
    have hold : ∀ kp ∈ s.invocations_, kp.2 < p := fun kp hkp =>
      Nat.lt_of_lt_of_le (hs.1 kp hkp) hle
    constructor
    · refine ⟨?_, ?_⟩
      · intro kp hkp
        rw [htab] at hkp
        rcases List.mem_cons.1 hkp with e | m
        · rw [e]; exact hlt
        · exact Nat.lt_trans (hold kp m) hlt
      · rw [htab, List.map_cons, List.nodup_cons]
        refine ⟨?_, hs.2⟩
        intro hin
        obtain ⟨kp, hkp, e⟩ := List.mem_map.1 hin
        have := hold kp hkp
        rw [e] at this
        exact Nat.lt_irrefl _ this
    · by_cases hk : c.key = key
      · subst hk
        cases acc with
        | cons a t =>
          obtain ⟨p0, info0, h1, -⟩ := (Tracks_cons L s _ a t).1 ht
          rw [hkey, hlk] at h1
          cases h1
        | nil =>
          rw [durationsOf_single_self, List.nil_append, Tracks_cons]
          refine ⟨p, firstCall L c.caller c.function c.duration_cycles, ?_, ?_, rfl, rfl,
            Aggregates_firstCall L _ _ _ hd⟩
          · rw [htab, hkey, lookup_cons_self]
          · simp only [TraceFileSegment.readInfo]
            rw [hmem, lookup_cons_self]
      · rw [durationsOf_single_ne c key hk, List.append_nil]
        have hkne : key ≠ (c.caller, c.function) := fun e => hk (by rw [hkey, e])
        cases acc with
        | nil =>
          rw [Tracks_nil] at ht ⊢
          rw [htab, lookup_cons_ne key _ _ _ hkne]
          exact ht
        | cons a t =>
          obtain ⟨p0, info0, h1, h2, hc, hf, hagg⟩ := (Tracks_cons L s _ a t).1 ht
          have hne : p0 ≠ p := Nat.ne_of_lt (hold _ (lookup_mem _ _ _ h1))
          rw [Tracks_cons]
          refine ⟨p0, info0, ?_, ?_, hc, hf, hagg⟩
          · rw [htab, lookup_cons_ne key _ _ _ hkne]
            exact h1
          · simp only [TraceFileSegment.readInfo]
            rw [hmem, lookup_cons_ne p0 p _ _ hne]
            exact h2

/-- A run of calls none of which reaches `FlushSegment` keeps the table sound
and adds to the record of `key` exactly the durations passed for `key`. -/
theorem record_run (L : Layout) (hL : L.Valid) (key : InvocationKey) :
    ∀ (cs : List Invocation) (s : ThreadState) (acc : List Nat), TableSound s →
      NoFlush L s cs = true → (∀ c ∈ cs, c.duration_cycles < U64) → Tracks L s key acc →
      TableSound (recordAll L s cs) ∧
      Tracks L (recordAll L s cs) key (acc ++ durationsOf key cs)
  | [], s, acc, hs, _, _, ht => by
    refine ⟨hs, ?_⟩
    simpa [recordAll, durationsOf] using ht
  | c :: cs, s, acc, hs, hnf, hd, ht => by
    simp only [NoFlush, Bool.and_eq_true, Bool.not_eq_true'] at hnf
    obtain ⟨h1, h2⟩ :=
      record_step L hL s hs c (hd c (List.mem_cons_self _ _)) hnf.1 key acc ht
    have ih := record_run L hL key cs _ (acc ++ durationsOf key [c]) h1 hnf.2
      (fun c' hc' => hd c' (List.mem_cons_of_mem _ hc')) h2
    rw [durationsOf_cons, ← List.append_assoc]
    exact ih

theorem durationsOf_replicate (c : Invocation) :
    ∀ n : Nat, durationsOf c.key (List.replicate n c) = List.replicate n c.duration_cycles
  | 0 => rfl
  | n + 1 => by
    rw [List.replicate_succ, durationsOf_cons, durationsOf_single_self,
      durationsOf_replicate c n, List.replicate_succ]
    rfl

theorem RecordInvocation_table_of_present (L : Layout) (s : ThreadState)
    (caller function d : Nat) (x : Option Nat)
    (h : (s.invocations_.lookup (caller, function)).isSome = true) :
    (RecordInvocation L s caller function d x).invocations_ = s.invocations_ := by
  obtain ⟨it, hit⟩ := Option.isSome_iff_exists.1 h
  cases hr : s.segment_.readInfo it with
  | none => rw [RecordInvocation_dangling L s _ _ _ _ it hit hr]
  | some info => rw [RecordInvocation_present L s _ _ _ _ it info hit hr]

theorem NoFlush_cons (L : Layout) (s : ThreadState) (c : Invocation) (cs : List Invocation) :
    NoFlush L s (c :: cs) =
      (!(reachesFlush L s c.key) &&
        NoFlush L (RecordInvocation L s c.caller c.function c.duration_cycles c.x) cs) := rfl

theorem recordAll_cons (L : Layout) (s : ThreadState) (c : Invocation) (cs : List Invocation) :
    recordAll L s (c :: cs) =
      recordAll L (RecordInvocation L s c.caller c.function c.duration_cycles c.x) cs := rfl

/-- Calls for a key that is in the table never reach `FlushSegment`. -/
theorem NoFlush_replicate (L : Layout) (c : Invocation) :
    ∀ (n : Nat) (s : ThreadState), (s.invocations_.lookup c.key).isSome = true →
      NoFlush L s (List.replicate n c) = true
  | 0, _, _ => rfl
  | n + 1, s, h => by
    obtain ⟨it, hit⟩ := Option.isSome_iff_exists.1 h
    rw [List.replicate_succ, NoFlush_cons, Bool.and_eq_true]
    refine ⟨by simp [reachesFlush, hit], NoFlush_replicate L c n _ ?_⟩
    rw [RecordInvocation_table_of_present L s _ _ _ _ h]
    exact h

/-- Recording `n + 1` calls of the same key, the first of which finds room
without a flush, leaves the counter at `(n + 1) mod 2^w`. -/
theorem replicate_run (L : Layout) (hL : L.Valid) (c : Invocation)
    (hd : c.duration_cycles < U64) (s : ThreadState) (hs : TableSound s)
    (habs : s.invocations_.lookup c.key = none) (hfit : reachesFlush L s c.key = false)
    (n : Nat) :
    NoFlush L s (List.replicate (n + 1) c) = true ∧
    ∃ info, infoOf (recordAll L s (List.replicate (n + 1) c)) c.key = some info ∧
      info.num_calls = (n + 1) % 2 ^ L.num_calls_bits := by
  have hnf : NoFlush L s (List.replicate (n + 1) c) = true := by
    rw [List.replicate_succ, NoFlush_cons, Bool.and_eq_true]
    refine ⟨by simp [hfit], NoFlush_replicate L c n _ ?_⟩
    obtain ⟨p, -, -, htab, -⟩ :=
      RecordInvocation_absent L hL s c.caller c.function c.duration_cycles c.x habs hfit
    rw [htab]
    exact Option.isSome_iff_exists.2 ⟨p, lookup_cons_self _ _ _⟩
  refine ⟨hnf, ?_⟩
  have h := (record_run L hL c.key (List.replicate (n + 1) c) s [] hs hnf
    (fun c' hc' => by rw [List.eq_of_mem_replicate hc']; exact hd)
    ((Tracks_nil _ _ _).2 habs)).2
  rw [List.nil_append, durationsOf_replicate] at h
  have h3 : Tracks L (recordAll L s (List.replicate (n + 1) c)) c.key
      (c.duration_cycles :: List.replicate n c.duration_cycles) := by
    rw [← List.replicate_succ]; exact h
  obtain ⟨p, info, h1, h2, -, -, hn, -⟩ := (Tracks_cons _ _ _ _ _).1 h3
  refine ⟨info, by simp only [infoOf, h1, h2], ?_⟩
  rw [hn, ← List.replicate_succ, List.length_replicate]

/-! ## The paths of `RecordInvocation` that reach `FlushSegment` -/

theorem alloc_flush_fails (L : Layout) (s : ThreadState)
    (h1 : (s.batch_.isSome && s.segment_.CanAllocateRaw L.sizeof_InvocationInfo) = false)
    (h2 : s.segment_.CanAllocate L L.sizeof_InvocationInfoBatch = false) :
    AllocateInvocationInfo L s none = (afterFailedFlush s, none) := by
  unfold AllocateInvocationInfo
  cases hb : s.batch_ with
  | none => simp [h2, FlushSegment, ExchangeBuffer, afterFailedFlush]
  | some b =>
    cases hr : s.segment_.CanAllocateRaw L.sizeof_InvocationInfo with
    | true => simp [hb, hr] at h1
    | false => simp [h2, FlushSegment, ExchangeBuffer, afterFailedFlush]

theorem alloc_flush_succeeds (L : Layout) (s : ThreadState) (capacity : Nat)
    (h1 : (s.batch_.isSome && s.segment_.CanAllocateRaw L.sizeof_InvocationInfo) = false)
    (h2 : s.segment_.CanAllocate L L.sizeof_InvocationInfoBatch = false) :
    AllocateInvocationInfo L s (some capacity) =
      (afterRollover L s capacity, some L.sizeof_RecordPrefix) := by
  unfold AllocateInvocationInfo
  cases hb : s.batch_ with
  | none =>
    simp [h2, FlushSegment, ExchangeBuffer, afterRollover,
      TraceFileSegment.AllocateTraceRecordImpl, TraceFileSegment.fresh]
  | some b =>
    cases hr : s.segment_.CanAllocateRaw L.sizeof_InvocationInfo with
    | true => simp [hb, hr] at h1
    | false =>
      simp [h2, FlushSegment, ExchangeBuffer, afterRollover,
        TraceFileSegment.AllocateTraceRecordImpl, TraceFileSegment.fresh]

theorem reachesFlush_true (L : Layout) (s : ThreadState) (key : InvocationKey)
    (h : reachesFlush L s key = true) :
    s.invocations_.lookup key = none ∧
    (s.batch_.isSome && s.segment_.CanAllocateRaw L.sizeof_InvocationInfo) = false ∧
    s.segment_.CanAllocate L L.sizeof_InvocationInfoBatch = false := by
  simp only [reachesFlush, Bool.and_eq_true, Option.isNone_iff_eq_none,
    Bool.not_eq_true'] at h
  exact ⟨h.1.1, h.1.2, h.2⟩

/-- A call that reaches `FlushSegment` while the exchange fails drops the sample. -/
theorem RecordInvocation_flush_fails (L : Layout) (s : ThreadState) (caller function d : Nat)
    (h : reachesFlush L s (caller, function) = true) :
    RecordInvocation L s caller function d none = afterFailedFlush s := by
  obtain ⟨h0, h1, h2⟩ := reachesFlush_true L s _ h
  simp [RecordInvocation, h0, alloc_flush_fails L s h1 h2]

/-- A call that reaches `FlushSegment` while the exchange succeeds starts a new
batch in the new segment and binds its key to the first cell of that batch. -/
theorem RecordInvocation_flush_succeeds (L : Layout) (s : ThreadState)
    (caller function d capacity : Nat) (h : reachesFlush L s (caller, function) = true) :
    RecordInvocation L s caller function d (some capacity) =
      { afterRollover L s capacity with
          invocations_ := [((caller, function), L.sizeof_RecordPrefix)]
          segment_ := (afterRollover L s capacity).segment_.writeInfo L.sizeof_RecordPrefix
            (firstCall L caller function d) } := by
  obtain ⟨h0, h1, h2⟩ := reachesFlush_true L s _ h
  simp [RecordInvocation, h0, alloc_flush_succeeds L s capacity h1 h2, afterRollover]

/-! ## The history invariant -/

theorem durationsOf_append (key : InvocationKey) (as bs : List Invocation) :
    durationsOf key (as ++ bs) = durationsOf key as ++ durationsOf key bs := by
  simp [durationsOf, List.filter_append]

theorem TableSound_afterFailedFlush (s : ThreadState) : TableSound (afterFailedFlush s) := by
  simp [TableSound, afterFailedFlush]

/-- A call of `RecordInvocation` keeps the table sound, whatever path it takes. -/
theorem RecordInvocation_sound (L : Layout) (hL : L.Valid) (s : ThreadState)
    (hs : TableSound s) (caller function d : Nat) (x : Option Nat) :
    TableSound (RecordInvocation L s caller function d x) := by
  cases hrf : reachesFlush L s (caller, function) with
  | true =>
    cases x with
    | none =>
      rw [RecordInvocation_flush_fails L s _ _ _ hrf]
      exact TableSound_afterFailedFlush s
    | some capacity =>
      rw [RecordInvocation_flush_succeeds L s _ _ _ _ hrf]
      have := hL.1
      have := hL.2.1
      simp only [TableSound, TraceFileSegment.writeInfo, afterRollover, List.mem_singleton,
        forall_eq, List.map_cons, List.map_nil, List.nodup_cons, List.not_mem_nil,
        not_false_eq_true, List.nodup_nil, and_self, and_true]
      omega
  | false =>
    cases hlk : s.invocations_.lookup (caller, function) with
    | some it =>
      cases hr : s.segment_.readInfo it with
      | none =>
        rw [RecordInvocation_dangling L s _ _ _ _ it hlk hr]
        exact hs
      | some info =>
        rw [RecordInvocation_present L s _ _ _ _ it info hlk hr]
        simpa [TableSound, TraceFileSegment.writeInfo] using hs
    | none =>
      obtain ⟨p, hle, hlt, htab, -, -, -⟩ :=
        RecordInvocation_absent L hL s caller function d x hlk hrf
      have hold : ∀ kp ∈ s.invocations_, kp.2 < p := fun kp hkp =>
        Nat.lt_of_lt_of_le (hs.1 kp hkp) hle
      refine ⟨?_, ?_⟩
      · intro kp hkp
        rw [htab] at hkp
        rcases List.mem_cons.1 hkp with e | m
        · rw [e]; exact hlt
        · exact Nat.lt_trans (hold kp m) hlt
      · rw [htab, List.map_cons, List.nodup_cons]
        refine ⟨?_, hs.2⟩
        intro hin
        obtain ⟨kp, hkp, e⟩ := List.mem_map.1 hin
        have := hold kp hkp
        rw [e] at this
        exact Nat.lt_irrefl _ this

/-- A call of `RecordInvocation` keeps the history invariant when its own
duration is added to the history. -/
theorem History_step (L : Layout) (hL : L.Valid) (s : ThreadState) (hist : List Invocation)
    (h : History L s hist) (c : Invocation) (hd : c.duration_cycles < U64) :
    History L (RecordInvocation L s c.caller c.function c.duration_cycles c.x)
      (hist ++ [c]) := by
  refine ⟨RecordInvocation_sound L hL s h.1 _ _ _ _, ?_⟩
  have hkey : c.key = (c.caller, c.function) := rfl
  have weaken : ∀ key p info, (key, p) ∈ s.invocations_ →
      s.segment_.readInfo p = some info →
      ∃ ds, ds ≠ [] ∧ Aggregates L info ds ∧ ds.Sublist (durationsOf key (hist ++ [c])) := by
    intro key p info hm hr
    obtain ⟨ds, hne, hagg, hsub⟩ := h.2 key p info hm hr
    refine ⟨ds, hne, hagg, ?_⟩
    rw [durationsOf_append]
    exact hsub.trans (List.sublist_append_left _ _)
  have first : ∃ ds, ds ≠ [] ∧
      Aggregates L (firstCall L c.caller c.function c.duration_cycles) ds ∧
      ds.Sublist (durationsOf (c.caller, c.function) (hist ++ [c])) := by
    refine ⟨[c.duration_cycles], by simp, Aggregates_firstCall L _ _ _ hd, ?_⟩
    rw [durationsOf_append, ← hkey, durationsOf_single_self]
    exact List.sublist_append_right _ _
  cases hrf : reachesFlush L s (c.caller, c.function) with
  | true =>
    cases hx : c.x with
    | none =>
      rw [RecordInvocation_flush_fails L s _ _ _ hrf]
      intro key p info hm
      simp [afterFailedFlush] at hm
    | some capacity =>
      rw [RecordInvocation_flush_succeeds L s _ _ _ _ hrf]
      intro key p info hm hr
      simp only [List.mem_singleton, Prod.mk.injEq] at hm
      obtain ⟨hk, hp⟩ := hm
      subst hk hp
      simp only [TraceFileSegment.readInfo, TraceFileSegment.writeInfo] at hr
      rw [lookup_cons_self] at hr
      cases hr
      exact first
  | false =>
    cases hlk : s.invocations_.lookup (c.caller, c.function) with
    | some it =>
      cases hr : s.segment_.readInfo it with
      | none =>
        rw [RecordInvocation_dangling L s _ _ _ _ it hlk hr]
        exact weaken
      | some info =>
        rw [RecordInvocation_present L s _ _ _ _ it info hlk hr]
        intro key p info' hm hr'
        simp only [TraceFileSegment.readInfo, TraceFileSegment.writeInfo] at hr'
        by_cases hp : p = it
        · subst hp
          rw [lookup_cons_self] at hr'
          cases hr'
          have hk : key = (c.caller, c.function) := by
            by_contra hne
            exact nodup_snd_ne s.invocations_ key (c.caller, c.function) p p h.1.2 hm
              (lookup_mem _ _ _ hlk) hne rfl
          subst hk
          obtain ⟨ds, -, hagg, hsub⟩ := h.2 _ p info hm hr
          refine ⟨ds ++ [c.duration_cycles], by simp, Aggregates_tally L info ds _ hagg, ?_⟩
          rw [durationsOf_append, ← hkey, durationsOf_single_self]
          exact List.Sublist.append hsub (List.Sublist.refl _)
        · rw [lookup_cons_ne p it _ _ hp] at hr'
          exact weaken key p info' hm hr'
    | none =>
      obtain ⟨p0, hle, -, htab, hmem, -, -⟩ :=
        RecordInvocation_absent L hL s c.caller c.function c.duration_cycles c.x hlk hrf
      intro key p info hm hr
      rw [htab] at hm
      simp only [TraceFileSegment.readInfo] at hr
      rw [hmem] at hr
      rcases List.mem_cons.1 hm with e | m
      · rw [Prod.mk.injEq] at e
        obtain ⟨hk, hp⟩ := e
        subst hk hp
        rw [lookup_cons_self] at hr
        cases hr
        exact first
      · have hne : p ≠ p0 := Nat.ne_of_lt (Nat.lt_of_lt_of_le (h.1.1 _ m) hle)
        rw [lookup_cons_ne p p0 _ _ hne] at hr
        exact weaken key p info m hr

/-- The history invariant holds along every run of `RecordInvocation`. -/
theorem History_run (L : Layout) (hL : L.Valid) :
    ∀ (cs : List Invocation) (s : ThreadState) (hist : List Invocation), History L s hist →
      (∀ c ∈ cs, c.duration_cycles < U64) → History L (recordAll L s cs) (hist ++ cs)
  | [], s, hist, h, _ => by simpa [recordAll] using h
  | c :: cs, s, hist, h, hd => by
    have h1 := History_step L hL s hist h c (hd c (List.mem_cons_self _ _))
    have h2 := History_run L hL cs _ (hist ++ [c]) h1
      (fun c' hc' => hd c' (List.mem_cons_of_mem _ hc'))
    rw [List.append_assoc, List.singleton_append] at h2
    exact h2

theorem length_mul_le_sum : ∀ (ds : List Nat) (m : Nat), (∀ d ∈ ds, m ≤ d) →
    ds.length * m ≤ ds.sum
  | [], _, _ => by simp
  | a :: t, m, h => by
    have h1 := h a (List.mem_cons_self _ _)
    have h2 := length_mul_le_sum t m (fun d hd => h d (List.mem_cons_of_mem _ hd))
    rw [List.length_cons, List.sum_cons, Nat.add_mul, Nat.one_mul]
    omega

theorem sum_le_length_mul : ∀ (ds : List Nat) (m : Nat), (∀ d ∈ ds, d ≤ m) →
    ds.sum ≤ ds.length * m
  | [], _, _ => by simp
  | a :: t, m, h => by
    have h1 := h a (List.mem_cons_self _ _)
    have h2 := sum_le_length_mul t m (fun d hd => h d (List.mem_cons_of_mem _ hd))
    rw [List.length_cons, List.sum_cons, Nat.add_mul, Nat.one_mul]
    omega

theorem sublist_sum_le : ∀ (as bs : List Nat), as.Sublist bs → as.sum ≤ bs.sum := by
  intro as bs h
  induction h with
  | slnil => exact Nat.le_refl _
  | cons a _ ih => rw [List.sum_cons]; omega
  | cons₂ a _ ih => rw [List.sum_cons, List.sum_cons]; omega

/-! ## C1: aggregation of the durations of one key -/

/-- C1 (amended): starting from a sound table that does not hold `key`, after
any sequence of `RecordInvocation` calls none of which reaches `FlushSegment`
and which passes at least one duration for `key`, the record of `key`
aggregates the durations `d1..dn` passed for it: `num_calls = n mod 2^w` for the
width `w` of the counter (so `num_calls = n` as long as `n < 2^w`),
`cycles_sum = (d1+...+dn) mod 2^64`, and `cycles_min`, `cycles_max` are the
minimum and the maximum of the `di`. -/
theorem RecordInvocation_aggregates_durations (L : Layout) (hL : L.Valid) (s : ThreadState)
    (hs : TableSound s) (key : InvocationKey) (habs : s.invocations_.lookup key = none)
    (cs : List Invocation) (hnf : NoFlush L s cs = true)
    (hd : ∀ c ∈ cs, c.duration_cycles < U64) (hne : durationsOf key cs ≠ []) :
    ∃ info, infoOf (recordAll L s cs) key = some info ∧
      info.num_calls = (durationsOf key cs).length % 2 ^ L.num_calls_bits ∧
      ((durationsOf key cs).length < 2 ^ L.num_calls_bits →
        info.num_calls = (durationsOf key cs).length) ∧
      info.cycles_sum = (durationsOf key cs).sum % 2 ^ 64 ∧
      (info.cycles_min ∈ durationsOf key cs ∧ ∀ d ∈ durationsOf key cs, info.cycles_min ≤ d) ∧
      (info.cycles_max ∈ durationsOf key cs ∧ ∀ d ∈ durationsOf key cs, d ≤ info.cycles_max) := by
  have h := (record_run L hL key cs s [] hs hnf hd ((Tracks_nil L s key).2 habs)).2
  rw [List.nil_append] at h
  cases hds : durationsOf key cs with
  | nil => exact absurd hds hne
  | cons a t =>
    rw [hds, Tracks_cons] at h
    obtain ⟨p, info, h1, h2, -, -, hn, hsum, hmin, hmax⟩ := h
    refine ⟨info, by simp [infoOf, h1, h2], hn, fun hlt => ?_, hsum, hmin, hmax⟩
    rw [hn, Nat.mod_eq_of_lt hlt]

/-- The theorem of C1 on the loop of scenario S2: three calls with 10, 20 and 15
cycles give `num_calls = 3`, `cycles_sum = 45`, minimum 10 and maximum 20. -/
theorem RecordInvocation_aggregates_durations_witness :
    layout32.Valid ∧ TableSound (initialState 4096) ∧
    (initialState 4096).invocations_.lookup (0x401000, 0x402000) = none ∧
    NoFlush layout32 (initialState 4096) loopCalls = true ∧
    (∀ c ∈ loopCalls, c.duration_cycles < U64) ∧
    durationsOf (0x401000, 0x402000) loopCalls = [10, 20, 15] ∧
    ∃ info, infoOf (recordAll layout32 (initialState 4096) loopCalls) (0x401000, 0x402000)
        = some info ∧
      info.num_calls = (durationsOf (0x401000, 0x402000) loopCalls).length
        % 2 ^ layout32.num_calls_bits ∧
      ((durationsOf (0x401000, 0x402000) loopCalls).length < 2 ^ layout32.num_calls_bits →
        info.num_calls = (durationsOf (0x401000, 0x402000) loopCalls).length) ∧
      info.cycles_sum = (durationsOf (0x401000, 0x402000) loopCalls).sum % 2 ^ 64 ∧
      (info.cycles_min ∈ durationsOf (0x401000, 0x402000) loopCalls ∧
        ∀ d ∈ durationsOf (0x401000, 0x402000) loopCalls, info.cycles_min ≤ d) ∧
      (info.cycles_max ∈ durationsOf (0x401000, 0x402000) loopCalls ∧
        ∀ d ∈ durationsOf (0x401000, 0x402000) loopCalls, d ≤ info.cycles_max) :=
  ⟨by decide, by decide, by decide, by decide, by decide, by decide,
    RecordInvocation_aggregates_durations layout32 (by decide) (initialState 4096) (by decide)
      (0x401000, 0x402000) (by decide) loopCalls (by decide) (by decide) (by decide)⟩

/-- Scenario S2 evaluated: the record of the loop's key after the four calls. -/
theorem loopCalls_record :
    infoOf (recordAll layout32 (initialState 4096) loopCalls) (0x401000, 0x402000) =
      some { caller := 0x401000, function := 0x402000, num_calls := 3,
             cycles_min := 10, cycles_max := 20, cycles_sum := 45 } := by
  decide

/-- C1 as stated fails once the call counter wraps: with a 32-bit `num_calls`,
`2^32` calls for one key, each of zero cycles and none reaching a flush, leave
`num_calls = 0`, not `2^32`. -/
theorem RecordInvocation_num_calls_wraps :
    (initialState 4096).invocations_.lookup quickCall.key = none ∧
    (durationsOf quickCall.key (List.replicate 4294967296 quickCall)).length = 4294967296 ∧
    NoFlush layout32 (initialState 4096) (List.replicate 4294967296 quickCall) = true ∧
    Option.map InvocationInfo.num_calls
      (infoOf (recordAll layout32 (initialState 4096) (List.replicate 4294967296 quickCall))
        quickCall.key) = some 0 := by
  have hlen : (durationsOf quickCall.key (List.replicate 4294967296 quickCall)).length
      = 4294967296 := by
    rw [durationsOf_replicate, List.length_replicate]
  obtain ⟨hnf, info, hi, hn⟩ := replicate_run layout32 (by decide) quickCall (by decide)
    (initialState 4096) (by decide) (by decide) (by decide) 4294967295
  have hi2 : infoOf (recordAll layout32 (initialState 4096)
      (List.replicate 4294967296 quickCall)) quickCall.key = some info := hi
  refine ⟨by decide, hlen, hnf, ?_⟩
  rw [hi2, Option.map_some', hn]
  decide

/-! ## C2: bounds on the records reachable through the table -/

theorem mem_lookup_of_nodup {α β : Type} [BEq α] [LawfulBEq α] (a : α) (b : β) :
    ∀ es : List (α × β), (es.map Prod.fst).Nodup → (a, b) ∈ es → List.lookup a es = some b
  | [], _, h => by cases h
  | (k, v) :: es, hn, h => by
    rw [List.map_cons, List.nodup_cons] at hn
    rcases List.mem_cons.1 h with e | m
    · rw [Prod.mk.injEq] at e
      rw [e.1, e.2, lookup_cons_self]
    · have hk : a ≠ k := fun e => hn.1 (List.mem_map.2 ⟨(a, b), m, e⟩)
      rw [lookup_cons_ne a k v es hk]
      exact mem_lookup_of_nodup a b es hn.2 m

/-- The method `RecordInvocation` never binds a key twice. -/
theorem RecordInvocation_keys_nodup (L : Layout) (hL : L.Valid) (s : ThreadState)
    (hs : (s.invocations_.map Prod.fst).Nodup) (caller function d : Nat) (x : Option Nat) :
    ((RecordInvocation L s caller function d x).invocations_.map Prod.fst).Nodup := by
  cases hrf : reachesFlush L s (caller, function) with
  | true =>
    cases x with
    | none =>
      rw [RecordInvocation_flush_fails L s _ _ _ hrf]
      exact List.nodup_nil
    | some capacity =>
      rw [RecordInvocation_flush_succeeds L s _ _ _ _ hrf]
      exact List.nodup_singleton _
  | false =>
    cases hlk : s.invocations_.lookup (caller, function) with
    | some it => rw [RecordInvocation_table_of_present L s _ _ _ _ (by rw [hlk]; rfl)]; exact hs
    | none =>
      obtain ⟨p, -, -, htab, -⟩ := RecordInvocation_absent L hL s caller function d x hlk hrf
      rw [htab, List.map_cons, List.nodup_cons]
      exact ⟨lookup_none_not_mem_keys _ _ hlk, hs⟩

theorem recordAll_keys_nodup (L : Layout) (hL : L.Valid) :
    ∀ (cs : List Invocation) (s : ThreadState), (s.invocations_.map Prod.fst).Nodup →
      ((recordAll L s cs).invocations_.map Prod.fst).Nodup
  | [], _, h => h
  | c :: cs, s, h =>
    recordAll_keys_nodup L hL cs _
      (RecordInvocation_keys_nodup L hL s h c.caller c.function c.duration_cycles c.x)

theorem Tracks_lookup (L : Layout) (s : ThreadState) (key : InvocationKey) (acc : List Nat)
    (h : Tracks L s key acc) : (s.invocations_.lookup key).isSome = !acc.isEmpty := by
  cases acc with
  | nil => rw [(Tracks_nil L s key).1 h]; rfl
  | cons a t =>
    obtain ⟨p, -, h1, -⟩ := (Tracks_cons L s key a t).1 h
    rw [h1]
    rfl

/-- One call of `RecordInvocation`, whatever path it takes, leaves the record of
`key` aggregating the durations `boundDurations` computes. -/
theorem bound_step (L : Layout) (hL : L.Valid) (s : ThreadState) (hs : TableSound s)
    (c : Invocation) (hd : c.duration_cycles < U64) (key : InvocationKey) (acc : List Nat)
    (ht : Tracks L s key acc) :
    Tracks L (RecordInvocation L s c.caller c.function c.duration_cycles c.x) key
      (if c.key = key then
        if (s.invocations_.lookup key).isSome then acc ++ [c.duration_cycles]
        else if ((RecordInvocation L s c.caller c.function c.duration_cycles
            c.x).invocations_.lookup key).isSome then [c.duration_cycles]
        else []
      else if ((RecordInvocation L s c.caller c.function c.duration_cycles
          c.x).invocations_.lookup key).isSome then acc
      else []) := by
  have hkey : c.key = (c.caller, c.function) := rfl
  cases hrf : reachesFlush L s c.key with
  | false =>
    have h := (record_step L hL s hs c hd hrf key acc ht).2
    have hl := Tracks_lookup L _ key _ h
    by_cases hk : c.key = key
    · rw [if_pos hk]
      rw [← hk, durationsOf_single_self] at h
      rw [← hk] at hl ht
      rw [durationsOf_single_self] at hl
      rw [← hk]
      cases hlk : (s.invocations_.lookup c.key).isSome with
      | true => rw [if_pos rfl]; exact h
      | false =>
        have hacc : acc = [] := by
          have := Tracks_lookup L s c.key acc ht
          rw [hlk] at this
          cases acc with
          | nil => rfl
          | cons a t => cases this
        subst hacc
        rw [if_neg (by simp), hl, if_pos (by simp)]
        exact h
    · rw [if_neg hk]
      rw [durationsOf_single_ne c key hk, List.append_nil] at h hl
      cases acc with
      | nil =>
        rw [hl]
        exact h
      | cons a t =>
        rw [hl, if_pos (by simp)]
        exact h
  | true =>
    have hrf2 : reachesFlush L s (c.caller, c.function) = true := hrf
    have h0 := (reachesFlush_true L s _ hrf2).1
    cases hx : c.x with
    | none =>
      rw [RecordInvocation_flush_fails L s _ _ _ hrf2]
      by_cases hk : c.key = key
      · rw [if_pos hk, ← hk, hkey, h0]
        exact (Tracks_nil L _ _).2 rfl
      · rw [if_neg hk]
        exact (Tracks_nil L _ _).2 rfl
    | some capacity =>
      rw [RecordInvocation_flush_succeeds L s _ _ _ _ hrf2]
      by_cases hk : c.key = key
      · rw [if_pos hk, ← hk, hkey, h0]
        show Tracks L _ _ (if (List.lookup (c.caller, c.function)
          [((c.caller, c.function), L.sizeof_RecordPrefix)]).isSome = true
          then [c.duration_cycles] else [])
        rw [lookup_cons_self]
        simp only [Option.isSome_some, if_true]
        rw [Tracks_cons]
        exact ⟨L.sizeof_RecordPrefix, firstCall L c.caller c.function c.duration_cycles,
          lookup_cons_self _ _ _, lookup_cons_self _ _ _, rfl, rfl,
          Aggregates_firstCall L _ _ _ hd⟩
      · rw [if_neg hk]
        have hne : key ≠ (c.caller, c.function) := fun e => hk (by rw [hkey, e])
        show Tracks L _ _ (if (List.lookup key
          [((c.caller, c.function), L.sizeof_RecordPrefix)]).isSome = true then acc else [])
        rw [lookup_cons_ne _ _ _ _ hne]
        simp only [List.lookup, Option.isSome_none, Bool.false_eq_true, if_false]
        exact (Tracks_nil L _ _).2 (lookup_cons_ne _ _ _ _ hne)

/-- Along every run of `RecordInvocation` the record of `key` aggregates exactly
the durations recorded for `key` since it was bound. -/
theorem bound_run (L : Layout) (hL : L.Valid) (key : InvocationKey) :
    ∀ (cs : List Invocation) (s : ThreadState) (acc : List Nat), TableSound s →
      (∀ c ∈ cs, c.duration_cycles < U64) → Tracks L s key acc →
      Tracks L (recordAll L s cs) key (boundDurations L key s cs acc)
  | [], _, _, _, _, ht => ht
  | c :: cs, s, acc, hs, hd, ht =>
    bound_run L hL key cs _ _ (RecordInvocation_sound L hL s hs _ _ _ _)
      (fun c' hc' => hd c' (List.mem_cons_of_mem _ hc'))
      (bound_step L hL s hs c (hd c (List.mem_cons_self _ _)) key acc ht)

/-- C2 (amended): starting from an empty table, after any sequence of
`RecordInvocation` calls with `uint64` durations, every `InvocationInfo`
reachable through the table aggregates the durations `d1..dn` recorded for its
key since the key was bound (`n ≥ 1`), so it satisfies
`cycles_min ≤ cycles_max`; and as long as `n < 2^w` (`w` the width of
`num_calls`) and `d1 + ... + dn < 2^64`, that is as long as neither counter of
the record has wrapped, it also satisfies `num_calls ≥ 1`,
`cycles_sum ≥ num_calls * cycles_min` and `cycles_sum ≤ num_calls * cycles_max`. -/
theorem reachable_info_bounds (L : Layout) (hL : L.Valid) (s : ThreadState)
    (hempty : s.invocations_ = []) (cs : List Invocation)
    (hd : ∀ c ∈ cs, c.duration_cycles < U64) (key : InvocationKey) (p : Nat)
    (info : InvocationInfo) (hm : (key, p) ∈ (recordAll L s cs).invocations_)
    (hr : (recordAll L s cs).segment_.readInfo p = some info) :
    boundDurations L key s cs [] ≠ [] ∧
    Aggregates L info (boundDurations L key s cs []) ∧
    info.cycles_min ≤ info.cycles_max ∧
    ((boundDurations L key s cs []).length < 2 ^ L.num_calls_bits →
      (boundDurations L key s cs []).sum < 2 ^ 64 →
      1 ≤ info.num_calls ∧ info.num_calls * info.cycles_min ≤ info.cycles_sum ∧
      info.cycles_sum ≤ info.num_calls * info.cycles_max) := by
  have hs : TableSound s := by simp [TableSound, hempty]
  have hk : (s.invocations_.map Prod.fst).Nodup := by rw [hempty]; exact List.nodup_nil
  have hlk := mem_lookup_of_nodup key p _ (recordAll_keys_nodup L hL cs s hk) hm
  have ht := bound_run L hL key cs s [] hs hd ((Tracks_nil L s key).2 (by rw [hempty]; rfl))
  cases hbd : boundDurations L key s cs [] with
  | nil =>
    rw [hbd, Tracks_nil, hlk] at ht
    cases ht
  | cons a t =>
    rw [hbd, Tracks_cons] at ht
    obtain ⟨p1, info1, h1, h2, -, -, hagg⟩ := ht
    rw [hlk] at h1
    cases h1
    rw [hr] at h2
    cases h2
    obtain ⟨hn, hsum, ⟨hmin, hlo⟩, ⟨hmax, hhi⟩⟩ := hagg
    refine ⟨by simp, ⟨hn, hsum, ⟨hmin, hlo⟩, ⟨hmax, hhi⟩⟩, hhi _ hmin, fun hlen hsm => ?_⟩
    have hsm2 : (a :: t).sum < U64 := hsm
    rw [Nat.mod_eq_of_lt hlen] at hn
    rw [Nat.mod_eq_of_lt hsm2] at hsum
    rw [hn, hsum]
    exact ⟨Nat.succ_pos _, length_mul_le_sum _ _ hlo, sum_le_length_mul _ _ hhi⟩

/-- The theorem of C2 on `rolloverCalls`: the key was recorded with `2^63`
cycles twice, but the record in the table was started after the last rollover
and aggregates the second call only, so its counters have not wrapped and the
bounds hold for it. -/
theorem reachable_info_bounds_witness :
    layout32.Valid ∧ (initialState 56).invocations_ = [] ∧
    (∀ c ∈ rolloverCalls, c.duration_cycles < U64) ∧
    ((0x401000, 0x402000), 16) ∈ (recordAll layout32 (initialState 56) rolloverCalls).invocations_ ∧
    (recordAll layout32 (initialState 56) rolloverCalls).segment_.readInfo 16 =
      some { caller := 0x401000, function := 0x402000, num_calls := 1,
             cycles_min := 9223372036854775808, cycles_max := 9223372036854775808,
             cycles_sum := 9223372036854775808 } ∧
    durationsOf (0x401000, 0x402000) rolloverCalls =
      [9223372036854775808, 9223372036854775808] ∧
    boundDurations layout32 (0x401000, 0x402000) (initialState 56) rolloverCalls [] =
      [9223372036854775808] ∧
    (boundDurations layout32 (0x401000, 0x402000) (initialState 56) rolloverCalls [] ≠ [] ∧
      Aggregates layout32
        { caller := 0x401000, function := 0x402000, num_calls := 1,
          cycles_min := 9223372036854775808, cycles_max := 9223372036854775808,
          cycles_sum := 9223372036854775808 }
        (boundDurations layout32 (0x401000, 0x402000) (initialState 56) rolloverCalls []) ∧
      (9223372036854775808 : Nat) ≤ 9223372036854775808 ∧
      ((boundDurations layout32 (0x401000, 0x402000) (initialState 56) rolloverCalls []).length
          < 2 ^ layout32.num_calls_bits →
        (boundDurations layout32 (0x401000, 0x402000) (initialState 56) rolloverCalls []).sum
          < 2 ^ 64 →
        1 ≤ 1 ∧ 1 * 9223372036854775808 ≤ 9223372036854775808 ∧
        9223372036854775808 ≤ 1 * 9223372036854775808)) :=
  ⟨by decide, by decide, by decide, by decide, by decide, by decide, by decide,
    reachable_info_bounds layout32 (by decide) (initialState 56) (by decide) rolloverCalls
      (by decide) (0x401000, 0x402000) 16
      { caller := 0x401000, function := 0x402000, num_calls := 1,
        cycles_min := 9223372036854775808, cycles_max := 9223372036854775808,
        cycles_sum := 9223372036854775808 } (by decide) (by decide)⟩

/-- The loop of scenario S2, evaluated: the record of the loop's key aggregates
the three durations passed for it. -/
theorem loopCalls_boundDurations :
    boundDurations layout32 (0x401000, 0x402000) (initialState 4096) loopCalls [] =
      [10, 20, 15] ∧
    boundDurations layout32 (0x401000, 0x402000) (initialState 4096) wrappedCalls [] =
      [18446744073709551611, 18446744073709551611] := by
  decide

/-- C2 as stated fails once `cycles_sum` wraps: two calls of `2^64 - 5` cycles
leave `num_calls = 2`, `cycles_min = 2^64 - 5` and `cycles_sum = 2^64 - 10`, so
`cycles_sum` is below `num_calls * cycles_min`. -/
theorem cycles_sum_wraps_below_bound :
    (∀ c ∈ wrappedCalls, c.duration_cycles < U64) ∧
    ((0x401000, 0x402000), 16) ∈
      (recordAll layout32 (initialState 4096) wrappedCalls).invocations_ ∧
    (recordAll layout32 (initialState 4096) wrappedCalls).segment_.readInfo 16 =
      some { caller := 0x401000, function := 0x402000, num_calls := 2,
             cycles_min := 18446744073709551611, cycles_max := 18446744073709551611,
             cycles_sum := 18446744073709551606 } ∧
    ¬ (18446744073709551606 ≥ 2 * 18446744073709551611) := by
  decide

/-! ## C3: the duration computed by `OnFunctionExit` -/

theorem sub64_eq_wrapping_sub (a b : Nat) (ha : a < 2 ^ 64) (hb : b < 2 ^ 64) :
    sub64 a b = wrapping_sub a b := by
  unfold sub64 wrapping_sub U64
  rw [Nat.mod_eq_of_lt ha, Nat.mod_eq_of_lt hb]
  split_ifs with h <;> omega

theorem wrapping_sub_lt (a b : Nat) (ha : a < 2 ^ 64) : wrapping_sub a b < 2 ^ 64 := by
  unfold wrapping_sub
  split_ifs with h <;> omega

/-- C3 (amended): when the exit hook pops `entry`, the duration it passes to
`RecordInvocation` is `cycles_exit − entry.cycles_entry − cycles_overhead_`
evaluated in `uint64`: the difference minus the overhead whenever the overhead
does not exceed the difference, and the wrapped-around value
`2^64 + difference − overhead` (not 0) whenever it does. -/
theorem OnFunctionExit_records_wrapping_duration (L : Layout) (s : ThreadState)
    (stack_pointer cycles_exit : Nat) (x : Option Nat) (rdtsc : Nat)
    (entry : StackEntry) (rest : List StackEntry)
    (hpop : Pop (TrimOrphansOnExit s.stack_ stack_pointer) = some (entry, rest))
    (hexit : cycles_exit < 2 ^ 64) (hentry : entry.cycles_entry < 2 ^ 64)
    (hover : s.cycles_overhead_ < 2 ^ 64) :
    OnFunctionExit L s stack_pointer cycles_exit x rdtsc =
      some (UpdateOverhead
        (RecordInvocation L { s with stack_ := rest } entry.caller entry.function
          (wrapping_sub (wrapping_sub cycles_exit entry.cycles_entry) s.cycles_overhead_) x)
        cycles_exit rdtsc, entry.return_address) ∧
    (s.cycles_overhead_ ≤ wrapping_sub cycles_exit entry.cycles_entry →
      wrapping_sub (wrapping_sub cycles_exit entry.cycles_entry) s.cycles_overhead_ =
        wrapping_sub cycles_exit entry.cycles_entry - s.cycles_overhead_) ∧
    (wrapping_sub cycles_exit entry.cycles_entry < s.cycles_overhead_ →
      wrapping_sub (wrapping_sub cycles_exit entry.cycles_entry) s.cycles_overhead_ =
        wrapping_sub cycles_exit entry.cycles_entry + 2 ^ 64 - s.cycles_overhead_) := by
  refine ⟨?_, fun h => ?_, fun h => ?_⟩
  · unfold OnFunctionExit
    rw [hpop]
    simp only [cycles_executed]
    rw [sub64_eq_wrapping_sub _ _ hexit hentry,
      sub64_eq_wrapping_sub _ _ (wrapping_sub_lt _ _ hexit) hover]
  · generalize wrapping_sub cycles_exit entry.cycles_entry = diff at h ⊢
    simp [wrapping_sub, h]
  · generalize wrapping_sub cycles_exit entry.cycles_entry = diff at h ⊢
    simp [wrapping_sub, Nat.not_le.2 h]

/-- The theorem of C3 on the state after one entry hook, with an exit at cycle
130: the elapsed cycles are 30, the overhead 10, the duration 20. -/
theorem OnFunctionExit_records_wrapping_duration_witness :
    Pop (TrimOrphansOnExit enteredState.stack_ 0x2000) =
      some ({ return_address := 0x401000, entry_frame := 0x2000, caller := 0x401000,
              function := 0x402000, cycles_entry := 100 }, []) ∧
    (130 : Nat) < 2 ^ 64 ∧ (100 : Nat) < 2 ^ 64 ∧ enteredState.cycles_overhead_ < 2 ^ 64 ∧
    (OnFunctionExit layout32 enteredState 0x2000 130 none 140 =
      some (UpdateOverhead
        (RecordInvocation layout32 { enteredState with stack_ := [] } 0x401000 0x402000
          (wrapping_sub (wrapping_sub 130 100) enteredState.cycles_overhead_) none)
        130 140, 0x401000) ∧
    (enteredState.cycles_overhead_ ≤ wrapping_sub 130 100 →
      wrapping_sub (wrapping_sub 130 100) enteredState.cycles_overhead_ =
        wrapping_sub 130 100 - enteredState.cycles_overhead_) ∧
    (wrapping_sub 130 100 < enteredState.cycles_overhead_ →
      wrapping_sub (wrapping_sub 130 100) enteredState.cycles_overhead_ =
        wrapping_sub 130 100 + 2 ^ 64 - enteredState.cycles_overhead_)) :=
  ⟨by decide, by decide, by decide, by decide,
    OnFunctionExit_records_wrapping_duration layout32 enteredState 0x2000 130 none 140
      { return_address := 0x401000, entry_frame := 0x2000, caller := 0x401000,
        function := 0x402000, cycles_entry := 100 } [] (by decide) (by decide) (by decide)
      (by decide)⟩

/-- C3 as stated fails: after an entry at cycle 100 whose hook takes 10 cycles,
an exit hook that reads cycle 105 finds an overhead (10) above the elapsed
cycles (5).  The clamped duration of the specification is 0; the code records
`2^64 - 5`. -/
theorem OnFunctionExit_duration_not_clamped :
    enteredState.cycles_overhead_ = 10 ∧
    spec_duration 105 100 enteredState.cycles_overhead_ = 0 ∧
    cycles_executed 105 100 enteredState.cycles_overhead_ = 18446744073709551611 ∧
    Option.map (fun r => infoOf r.1 (0x401000, 0x402000))
      (OnFunctionExit layout32 enteredState 0x2000 105 none 115) =
      some (some { caller := 0x401000, function := 0x402000, num_calls := 1,
                   cycles_min := 18446744073709551611, cycles_max := 18446744073709551611,
                   cycles_sum := 18446744073709551611 }) := by
  decide

/-! ## The shadow stack along a run of hook calls -/

theorem AllocateInvocationInfo_stack (L : Layout) (s : ThreadState) (x : Option Nat) :
    (AllocateInvocationInfo L s x).1.stack_ = s.stack_ ∧
    (AllocateInvocationInfo L s x).1.cycles_overhead_ = s.cycles_overhead_ ∧
    (AllocateInvocationInfo L s x).1.logged_modules_ = s.logged_modules_ := by
  unfold AllocateInvocationInfo
  split
  · exact ⟨rfl, rfl, rfl⟩
  · cases x <;> simp only [FlushSegment, ExchangeBuffer] <;> split_ifs <;> exact ⟨rfl, rfl, rfl⟩

/-- The method `RecordInvocation` leaves the shadow stack, the overhead and the
module ledger alone. -/
theorem RecordInvocation_stack (L : Layout) (s : ThreadState) (caller function d : Nat)
    (x : Option Nat) :
    (RecordInvocation L s caller function d x).stack_ = s.stack_ ∧
    (RecordInvocation L s caller function d x).cycles_overhead_ = s.cycles_overhead_ ∧
    (RecordInvocation L s caller function d x).logged_modules_ = s.logged_modules_ := by
  have h := AllocateInvocationInfo_stack L s x
  unfold RecordInvocation
  split
  · split <;> exact ⟨rfl, rfl, rfl⟩
  · split
    · rename_i s1 p heq
      rw [heq] at h
      exact h
    · rename_i s1 heq
      rw [heq] at h
      exact h

/-- What an exit hook does to a stack it does not trim: it pops the top entry
and returns that entry's return address. -/
theorem OnFunctionExit_of_top (L : Layout) (s : ThreadState) (sp cycles_exit : Nat)
    (x : Option Nat) (rdtsc : Nat) (top : StackEntry) (rest : List StackEntry)
    (hstack : s.stack_ = top :: rest) (htrim : TrimOrphansOnExit s.stack_ sp = s.stack_) :
    ∃ s1, OnFunctionExit L s sp cycles_exit x rdtsc = some (s1, top.return_address) ∧
      s1.stack_ = rest := by
  unfold OnFunctionExit
  rw [htrim, hstack]
  simp only [Pop]
  exact ⟨_, rfl, (RecordInvocation_stack L _ _ _ _ _).1⟩

/-- What an enabled entry hook does to a stack it does not trim: it pushes an
entry holding the frame's return address and redirects the frame to `pexit`. -/
theorem OnFunctionEntry_of_untrimmed (pexit : Nat) (s : ThreadState) (entry_frame : Nat)
    (frame : EntryFrame) (function cycles rdtsc : Nat)
    (htrim : TrimOrphansOnEntry s.stack_ entry_frame = s.stack_) :
    ∃ e : StackEntry, e.return_address = frame.retaddr ∧
      (OnFunctionEntry pexit s false entry_frame frame function cycles rdtsc).1.stack_ =
        e :: s.stack_ ∧
      (OnFunctionEntry pexit s false entry_frame frame function cycles rdtsc).2.retaddr =
        pexit := by
  refine ⟨{ return_address := frame.retaddr, entry_frame := entry_frame,
            caller := frame.retaddr, function := function,
            cycles_entry := sub64 cycles s.cycles_overhead_ }, rfl, ?_, ?_⟩
  · simp only [OnFunctionEntry, Bool.false_eq_true, if_false, htrim, Push, UpdateOverhead]
  · simp only [OnFunctionEntry, Bool.false_eq_true, if_false]

/-- The shadow stack along a properly nested, consistent sequence of hook calls
with the session enabled: the run succeeds, the frames `base` below the
`pushed` ones are never touched, and the number of frames above `base` changes
by the number of entries minus the number of exits. -/
theorem runHooks_nested (L : Layout) (pexit : Nat) :
    ∀ (hs : List HookCall) (s : ThreadState) (pushed base : List StackEntry),
      s.stack_ = pushed ++ base → nestedFrom pushed.length hs = true →
      sessionEnabled hs = true → Consistent L pexit s hs = true →
      ∃ s1 pushed1, runHooks L pexit s hs = some s1 ∧ s1.stack_ = pushed1 ++ base ∧
        pushed1.length + exits hs = pushed.length + entries hs
  | [], s, pushed, base, hst, _, _, _ => ⟨s, pushed, rfl, hst, rfl⟩
  | .entry is_disabled entry_frame frame function cycles rdtsc :: hs, s, pushed, base,
      hst, hn, he, hc => by
    simp only [sessionEnabled, Bool.and_eq_true, Bool.not_eq_true'] at he
    obtain ⟨hdis, he⟩ := he
    subst hdis
    simp only [Consistent, trimsNothing, hookStep, Bool.and_eq_true, decide_eq_true_eq] at hc
    obtain ⟨htrim, hc⟩ := hc
    obtain ⟨e, -, hpush, -⟩ :=
      OnFunctionEntry_of_untrimmed pexit s entry_frame frame function cycles rdtsc htrim
    have hst1 : (OnFunctionEntry pexit s false entry_frame frame function cycles rdtsc).1.stack_
        = (e :: pushed) ++ base := by rw [hpush, hst]; rfl
    obtain ⟨s1, pushed1, hrun, hs1, hlen⟩ :=
      runHooks_nested L pexit hs _ (e :: pushed) base hst1 hn he hc
    refine ⟨s1, pushed1, ?_, hs1, ?_⟩
    · simp only [runHooks, hookStep]
      exact hrun
    · simp only [entries, exits, List.length_cons] at hlen ⊢
      omega
  | .exit sp cycles_exit x rdtsc :: hs, s, pushed, base, hst, hn, he, hc => by
    simp only [nestedFrom, Bool.and_eq_true, decide_eq_true_eq] at hn
    obtain ⟨hpos, hn⟩ := hn
    cases pushed with
    | nil => simp at hpos
    | cons top rest =>
      simp only [Consistent, trimsNothing, Bool.and_eq_true, decide_eq_true_eq] at hc
      obtain ⟨htrim, hc⟩ := hc
      obtain ⟨s0, hexit, hs0⟩ :=
        OnFunctionExit_of_top L s sp cycles_exit x rdtsc top (rest ++ base) hst htrim
      have hstep : hookStep L pexit s (.exit sp cycles_exit x rdtsc) = some s0 := by
        simp only [hookStep, hexit, Option.map_some']
      rw [hstep] at hc
      obtain ⟨s1, pushed1, hrun, hs1, hlen⟩ :=
        runHooks_nested L pexit hs s0 rest base hs0 hn he hc
      refine ⟨s1, pushed1, ?_, hs1, ?_⟩
      · simp only [runHooks, hstep]
        exact hrun
      · simp only [entries, exits, List.length_cons] at hlen ⊢
        omega

theorem nestedFrom_append_left :
    ∀ (p q : List HookCall) (depth : Nat), nestedFrom depth (p ++ q) = true →
      nestedFrom depth p = true
  | [], _, _, _ => rfl
  | .entry _ _ _ _ _ _ :: p, q, depth, h => by
    simp only [List.cons_append, nestedFrom] at h ⊢
    exact nestedFrom_append_left p q _ h
  | .exit _ _ _ _ :: p, q, depth, h => by
    simp only [List.cons_append, nestedFrom, Bool.and_eq_true] at h ⊢
    exact ⟨h.1, nestedFrom_append_left p q _ h.2⟩

theorem sessionEnabled_append_left :
    ∀ (p q : List HookCall), sessionEnabled (p ++ q) = true → sessionEnabled p = true
  | [], _, _ => rfl
  | .entry _ _ _ _ _ _ :: p, q, h => by
    simp only [List.cons_append, sessionEnabled, Bool.and_eq_true] at h ⊢
    exact ⟨h.1, sessionEnabled_append_left p q h.2⟩
  | .exit _ _ _ _ :: p, q, h => by
    simp only [List.cons_append, sessionEnabled] at h ⊢
    exact sessionEnabled_append_left p q h

theorem Consistent_append_left (L : Layout) (pexit : Nat) :
    ∀ (p q : List HookCall) (s : ThreadState), Consistent L pexit s (p ++ q) = true →
      Consistent L pexit s p = true
  | [], _, _, _ => rfl
  | h :: p, q, s, hc => by
    simp only [List.cons_append, Consistent, Bool.and_eq_true] at hc ⊢
    refine ⟨hc.1, ?_⟩
    cases hstep : hookStep L pexit s h with
    | none => rfl
    | some s1 =>
      have h2 := hc.2
      rw [hstep] at h2
      exact Consistent_append_left L pexit p q s1 h2

/-- The frame pushed by an enabled entry hook holds the frame's return address,
and the frame is redirected to `pexit`. -/
theorem OnFunctionEntry_pushes (pexit : Nat) (s : ThreadState) (entry_frame : Nat)
    (frame : EntryFrame) (function cycles rdtsc : Nat) :
    ∃ e : StackEntry, e.return_address = frame.retaddr ∧
      (OnFunctionEntry pexit s false entry_frame frame function cycles rdtsc).1.stack_ =
        e :: TrimOrphansOnEntry s.stack_ entry_frame ∧
      (OnFunctionEntry pexit s false entry_frame frame function cycles rdtsc).2.retaddr =
        pexit := by
  refine ⟨{ return_address := frame.retaddr, entry_frame := entry_frame,
            caller := frame.retaddr, function := function,
            cycles_entry := sub64 cycles s.cycles_overhead_ }, rfl, ?_, ?_⟩
  · simp only [OnFunctionEntry, Bool.false_eq_true, if_false, Push, UpdateOverhead]
  · simp only [OnFunctionEntry, Bool.false_eq_true, if_false]

/-! ## The round trip on a shadow stack that trims nothing -/

/-- The round trip as far as the specified trimming allows it: when
`OnFunctionEntry` runs with the session enabled on a frame whose return address
is `R`, it redirects the frame to `pexit`; after any properly nested, balanced
sequence of hook calls that trim nothing, the run has succeeded and an
`OnFunctionExit` that trims nothing returns exactly `R`, whatever the state of
the segment and the outcome of the exchange.  An exit trims nothing only when
its stack pointer is not above the frame address on top of the stack. -/
theorem OnFunctionExit_returns_displaced_address (L : Layout) (pexit : Nat) (s : ThreadState)
    (entry_frame : Nat) (frame : EntryFrame) (function cycles rdtsc : Nat)
    (mid : List HookCall) (hnest : nestedFrom 0 mid = true)
    (hbal : entries mid = exits mid) (hen : sessionEnabled mid = true)
    (hcons : Consistent L pexit
      (OnFunctionEntry pexit s false entry_frame frame function cycles rdtsc).1 mid = true) :
    (OnFunctionEntry pexit s false entry_frame frame function cycles rdtsc).2.retaddr = pexit ∧
    ∃ s2, runHooks L pexit
        (OnFunctionEntry pexit s false entry_frame frame function cycles rdtsc).1 mid = some s2 ∧
      ∀ (stack_pointer cycles_exit : Nat) (x : Option Nat) (rdtsc2 : Nat),
        TrimOrphansOnExit s2.stack_ stack_pointer = s2.stack_ →
        ∃ s3, OnFunctionExit L s2 stack_pointer cycles_exit x rdtsc2 =
          some (s3, frame.retaddr) := by
  obtain ⟨e, hret, hpush, hredirect⟩ :=
    OnFunctionEntry_pushes pexit s entry_frame frame function cycles rdtsc
  refine ⟨hredirect, ?_⟩
  obtain ⟨s2, pushed, hrun, hstack, hlen⟩ :=
    runHooks_nested L pexit mid _ [] _ (List.nil_append _).symm hnest hen hcons
  have hnil : pushed = [] := by
    apply List.eq_nil_of_length_eq_zero
    simp only [List.length_nil] at hlen
    omega
  rw [hnil, List.nil_append, hpush] at hstack
  refine ⟨s2, hrun, fun sp cycles_exit x rdtsc2 htrim => ?_⟩
  obtain ⟨s3, hexit, -⟩ := OnFunctionExit_of_top L s2 sp cycles_exit x rdtsc2 e _ hstack htrim
  rw [hret] at hexit
  exact ⟨s3, hexit⟩

/-- The round trip on the entry of `enteredState` with one nested call in
between, with exits that pass the frame address itself. -/
theorem OnFunctionExit_returns_displaced_address_witness :
    nestedFrom 0 nestedCalls = true ∧ entries nestedCalls = exits nestedCalls ∧
    sessionEnabled nestedCalls = true ∧
    Consistent layout32 samplePexit
      (OnFunctionEntry samplePexit (initialState 4096) false 0x2000 sampleFrame
        0x402000 100 110).1 nestedCalls = true ∧
    ((OnFunctionEntry samplePexit (initialState 4096) false 0x2000 sampleFrame
        0x402000 100 110).2.retaddr = samplePexit ∧
    ∃ s2, runHooks layout32 samplePexit
        (OnFunctionEntry samplePexit (initialState 4096) false 0x2000 sampleFrame
          0x402000 100 110).1 nestedCalls = some s2 ∧
      ∀ (stack_pointer cycles_exit : Nat) (x : Option Nat) (rdtsc2 : Nat),
        TrimOrphansOnExit s2.stack_ stack_pointer = s2.stack_ →
        ∃ s3, OnFunctionExit layout32 s2 stack_pointer cycles_exit x rdtsc2 =
          some (s3, sampleFrame.retaddr)) :=
  ⟨by decide, by decide, by decide, by decide,
    OnFunctionExit_returns_displaced_address layout32 samplePexit (initialState 4096) 0x2000
      sampleFrame 0x402000 100 110 nestedCalls (by decide) (by decide) (by decide)
      (by decide)⟩

/-- Scenario S1 evaluated with exits that pass the frame address itself: both
exit hooks return the address their entry hook displaced, and the shadow stack
is empty at the end. -/
theorem twoNestedCalls_round_trip :
    Option.map (fun s => OnFunctionExit layout32 s 0x1f00 300 none 310 |>.map Prod.snd)
      (runHooks layout32 samplePexit (initialState 4096) (twoNestedCalls.take 2)) =
      some (some 0x402010) ∧
    Option.map (fun s => OnFunctionExit layout32 s 0x2000 400 none 410 |>.map Prod.snd)
      (runHooks layout32 samplePexit (initialState 4096) (twoNestedCalls.take 3)) =
      some (some 0x401000) ∧
    Option.map (fun s => s.stack_)
      (runHooks layout32 samplePexit (initialState 4096) twoNestedCalls) = some [] := by
  decide

/-! ## The depth of a shadow stack that trims nothing -/

/-- The depth as far as the specified trimming allows it: starting from an
empty shadow stack, after every properly nested sequence of `N` entry and `N`
exit hook calls, with the session enabled and stack pointers that trim nothing,
the run has succeeded with shadow stack depth zero, and after every prefix of
the sequence the depth is the number of entries minus the number of exits of
the prefix. -/
theorem shadow_stack_depth_balanced (L : Layout) (pexit : Nat) (s : ThreadState)
    (hempty : s.stack_ = []) (hs : List HookCall) (N : Nat)
    (hentries : entries hs = N) (hexits : exits hs = N) (hnest : nestedFrom 0 hs = true)
    (hen : sessionEnabled hs = true) (hcons : Consistent L pexit s hs = true) :
    (∃ s1, runHooks L pexit s hs = some s1 ∧ s1.stack_.length = 0) ∧
    ∀ p : List HookCall, p <+: hs →
      ∃ s1, runHooks L pexit s p = some s1 ∧ exits p ≤ entries p ∧
        s1.stack_.length = entries p - exits p := by
  have key : ∀ p : List HookCall, p <+: hs →
      ∃ s1, runHooks L pexit s p = some s1 ∧ exits p ≤ entries p ∧
        s1.stack_.length = entries p - exits p := by
    rintro p ⟨q, rfl⟩
    obtain ⟨s1, pushed, hrun, hstack, hlen⟩ :=
      runHooks_nested L pexit p s [] [] (by rw [hempty]; rfl)
        (nestedFrom_append_left p q 0 hnest) (sessionEnabled_append_left p q hen)
        (Consistent_append_left L pexit p q s hcons)
    refine ⟨s1, hrun, ?_, ?_⟩
    · simp only [List.length_nil] at hlen
      omega
    · rw [hstack, List.append_nil]
      simp only [List.length_nil] at hlen
      omega
  refine ⟨?_, key⟩
  obtain ⟨s1, hrun, -, hlen⟩ := key hs (List.prefix_refl hs)
  refine ⟨s1, hrun, ?_⟩
  rw [hlen, hentries, hexits, Nat.sub_self]

/-- The depth along scenario S1, two nested calls (`N = 2`), with exits that
pass the frame address itself. -/
theorem shadow_stack_depth_balanced_witness :
    (initialState 4096).stack_ = [] ∧ entries twoNestedCalls = 2 ∧ exits twoNestedCalls = 2 ∧
    nestedFrom 0 twoNestedCalls = true ∧ sessionEnabled twoNestedCalls = true ∧
    Consistent layout32 samplePexit (initialState 4096) twoNestedCalls = true ∧
    ((∃ s1, runHooks layout32 samplePexit (initialState 4096) twoNestedCalls = some s1 ∧
        s1.stack_.length = 0) ∧
      ∀ p : List HookCall, p <+: twoNestedCalls →
        ∃ s1, runHooks layout32 samplePexit (initialState 4096) p = some s1 ∧
          exits p ≤ entries p ∧ s1.stack_.length = entries p - exits p) :=
  ⟨by decide, by decide, by decide, by decide, by decide, by decide,
    shadow_stack_depth_balanced layout32 samplePexit (initialState 4096) (by decide)
      twoNestedCalls 2 (by decide) (by decide) (by decide) (by decide) (by decide)⟩

/-! ## Module records -/

theorem moduleRecords_flush (s : ThreadState) (x : Option Nat) (M : Nat) :
    moduleRecords (FlushSegment s x).1 M = moduleRecords s M ∧
    (FlushSegment s x).1.logged_modules_ = s.logged_modules_ := by
  cases x with
  | none => exact ⟨rfl, rfl⟩
  | some capacity =>
    refine ⟨?_, rfl⟩
    simp only [FlushSegment, ExchangeBuffer, moduleRecords, List.map_cons, List.sum_cons]
    simp [moduleRecordsIn, TraceFileSegment.fresh]

theorem moduleRecords_entry (pexit : Nat) (s : ThreadState) (is_disabled : Bool)
    (entry_frame : Nat) (frame : EntryFrame) (function cycles rdtsc M : Nat) :
    moduleRecords (OnFunctionEntry pexit s is_disabled entry_frame frame function cycles
      rdtsc).1 M = moduleRecords s M ∧
    (OnFunctionEntry pexit s is_disabled entry_frame frame function cycles
      rdtsc).1.logged_modules_ = s.logged_modules_ := by
  unfold OnFunctionEntry
  split_ifs <;> exact ⟨rfl, rfl⟩

theorem OnModuleEntry_disabled (L : Layout) (pexit : Nat) (s : ThreadState)
    (is_disabled2 : Bool) (entry_frame : Nat) (frame : EntryFrame) (function cycles : Nat)
    (image : PEImage) (x1 x2 : Option Nat) (rdtsc : Nat) :
    OnModuleEntry L pexit s true is_disabled2 entry_frame frame function cycles image x1 x2
      rdtsc = (s, frame) := by
  simp [OnModuleEntry]

theorem OnModuleEntry_not_logged (L : Layout) (pexit : Nat) (s : ThreadState)
    (is_disabled2 : Bool) (entry_frame : Nat) (frame : EntryFrame) (function cycles : Nat)
    (image : PEImage) (x1 x2 : Option Nat) (rdtsc : Nat)
    (h : (should_log_module frame.args1 && !(s.logged_modules_.contains frame.args0)) = false) :
    OnModuleEntry L pexit s false is_disabled2 entry_frame frame function cycles image x1 x2
      rdtsc = OnFunctionEntry pexit s is_disabled2 entry_frame frame function cycles rdtsc := by
  simp only [OnModuleEntry, h, Bool.false_eq_true, if_false]

/-- The record does not fit: the hook returns at once, with the module in the
ledger, without a flush and without recording the function entry. -/
theorem OnModuleEntry_no_room (L : Layout) (pexit : Nat) (s : ThreadState)
    (is_disabled2 : Bool) (entry_frame : Nat) (frame : EntryFrame) (function cycles : Nat)
    (image : PEImage) (x1 x2 : Option Nat) (rdtsc : Nat)
    (h : (should_log_module frame.args1 && !(s.logged_modules_.contains frame.args0)) = true)
    (hfit : s.segment_.CanAllocate L L.sizeof_TraceModuleData = false) :
    OnModuleEntry L pexit s false is_disabled2 entry_frame frame function cycles image x1 x2
      rdtsc = ({ s with logged_modules_ := frame.args0 :: s.logged_modules_ }, frame) := by
  simp only [OnModuleEntry, h, hfit, Bool.false_eq_true, if_false, if_true, Bool.not_false]

/-- The record fits but the flush made before placing it fails: the hook
returns without a record. -/
theorem OnModuleEntry_flush_fails (L : Layout) (pexit : Nat) (s : ThreadState)
    (is_disabled2 : Bool) (entry_frame : Nat) (frame : EntryFrame) (function cycles : Nat)
    (image : PEImage) (x2 : Option Nat) (rdtsc : Nat)
    (h : (should_log_module frame.args1 && !(s.logged_modules_.contains frame.args0)) = true)
    (hfit : s.segment_.CanAllocate L L.sizeof_TraceModuleData = true) :
    OnModuleEntry L pexit s false is_disabled2 entry_frame frame function cycles image none x2
      rdtsc =
      (afterFailedFlush { s with logged_modules_ := frame.args0 :: s.logged_modules_ },
        frame) := by
  simp only [OnModuleEntry, h, hfit, Bool.false_eq_true, if_false, if_true, Bool.not_true,
    FlushSegment, ExchangeBuffer, Bool.not_false, afterFailedFlush]

/-- The record fits and the flush made before placing it succeeds: the record
is placed in the new buffer, the segment is flushed again, and the function
entry is recorded. -/
theorem OnModuleEntry_logs (L : Layout) (pexit : Nat) (s : ThreadState)
    (is_disabled2 : Bool) (entry_frame : Nat) (frame : EntryFrame) (function cycles : Nat)
    (image : PEImage) (capacity : Nat) (x2 : Option Nat) (rdtsc : Nat)
    (h : (should_log_module frame.args1 && !(s.logged_modules_.contains frame.args0)) = true)
    (hfit : s.segment_.CanAllocate L L.sizeof_TraceModuleData = true) :
    OnModuleEntry L pexit s false is_disabled2 entry_frame frame function cycles image
      (some capacity) x2 rdtsc =
      OnFunctionEntry pexit
        (FlushSegment (afterModuleRecord L s capacity frame.args1 frame.args0 image) x2).1
        is_disabled2 entry_frame frame function cycles rdtsc := by
  simp only [OnModuleEntry, h, hfit, Bool.false_eq_true, if_false, if_true, Bool.not_true,
    FlushSegment, ExchangeBuffer, afterModuleRecord, moduleEvent,
    TraceFileSegment.AllocateTraceRecordImpl, TraceFileSegment.writeModule,
    TraceFileSegment.fresh, Nat.zero_add]

theorem moduleRecords_afterModuleRecord (L : Layout) (s : ThreadState)
    (capacity reason module : Nat) (image : PEImage) (M : Nat) :
    moduleRecords (afterModuleRecord L s capacity reason module image) M =
      moduleRecords s M + (if module = M then 1 else 0) := by
  by_cases h : module = M
  · simp only [moduleRecords, afterModuleRecord, moduleRecordsIn, moduleEvent, List.map_cons,
      List.sum_cons, List.filter_cons, List.filter_nil, h, decide_True, if_true,
      List.length_cons, List.length_nil]
    omega
  · simp only [moduleRecords, afterModuleRecord, moduleRecordsIn, moduleEvent, List.map_cons,
      List.sum_cons, List.filter_cons, List.filter_nil, h, decide_False, if_false,
      List.length_nil, Bool.false_eq_true]
    omega

/-- What one call of `OnModuleEntry` does to the module ledger and to the
number of module records for `M`: the ledger only grows; a record for `M` is
written at most once, and only by an enabled attach call for `M` itself that
finds `M` outside the ledger and puts it in. -/
theorem moduleStep_effect (L : Layout) (pexit : Nat) (s : ThreadState) (c : ModuleCall)
    (M : Nat) :
    (∀ m ∈ s.logged_modules_, m ∈ (moduleStep L pexit s c).logged_modules_) ∧
    moduleRecords s M ≤ moduleRecords (moduleStep L pexit s c) M ∧
    moduleRecords (moduleStep L pexit s c) M ≤ moduleRecords s M + 1 ∧
    (moduleRecords (moduleStep L pexit s c) M ≠ moduleRecords s M →
      c.is_disabled = false ∧ should_log_module c.frame.args1 = true ∧ c.frame.args0 = M ∧
      M ∉ s.logged_modules_ ∧ M ∈ (moduleStep L pexit s c).logged_modules_) ∧
    (should_log_module c.frame.args1 = false →
      (moduleStep L pexit s c).logged_modules_ = s.logged_modules_ ∧
      moduleRecords (moduleStep L pexit s c) M = moduleRecords s M) := by
  unfold moduleStep
  cases hdis : c.is_disabled with
  | true =>
    rw [OnModuleEntry_disabled]
    exact ⟨fun _ hm => hm, Nat.le_refl _, Nat.le_succ _, fun h => absurd rfl h,
      fun _ => ⟨rfl, rfl⟩⟩
  | false =>
    cases hlog : (should_log_module c.frame.args1 &&
        !(s.logged_modules_.contains c.frame.args0)) with
    | false =>
      rw [OnModuleEntry_not_logged L pexit s _ _ _ _ _ _ _ _ _ hlog]
      obtain ⟨h1, h2⟩ := moduleRecords_entry pexit s c.is_disabled2 c.entry_frame c.frame
        c.function c.cycles c.rdtsc M
      rw [h1, h2]
      exact ⟨fun _ hm => hm, Nat.le_refl _, Nat.le_succ _, fun h => absurd rfl h,
        fun _ => ⟨rfl, rfl⟩⟩
    | true =>
      have hlog2 := hlog
      simp only [Bool.and_eq_true, Bool.not_eq_true', List.contains_eq_any_beq,
        List.any_eq_false, beq_iff_eq] at hlog2
      obtain ⟨hsl, hnot⟩ := hlog2
      have hnotin : c.frame.args0 ∉ s.logged_modules_ := fun hin => hnot _ hin rfl
      have hno : should_log_module c.frame.args1 = false → False := fun h => by
        rw [hsl] at h; cases h
      cases hfit : s.segment_.CanAllocate L L.sizeof_TraceModuleData with
      | false =>
        rw [OnModuleEntry_no_room L pexit s _ _ _ _ _ _ _ _ _ hlog hfit]
        exact ⟨fun m hm => List.mem_cons_of_mem _ hm, Nat.le_refl _, Nat.le_succ _,
          fun h => absurd rfl h, fun h => (hno h).elim⟩
      | true =>
        cases hx1 : c.x1 with
        | none =>
          rw [OnModuleEntry_flush_fails L pexit s _ _ _ _ _ _ _ _ hlog hfit]
          exact ⟨fun m hm => List.mem_cons_of_mem _ hm, Nat.le_refl _, Nat.le_succ _,
            fun h => absurd rfl h, fun h => (hno h).elim⟩
        | some capacity =>
          rw [OnModuleEntry_logs L pexit s _ _ _ _ _ _ _ _ _ hlog hfit]
          obtain ⟨h1, h2⟩ := moduleRecords_entry pexit
            (FlushSegment (afterModuleRecord L s capacity c.frame.args1 c.frame.args0
              c.image) c.x2).1 c.is_disabled2 c.entry_frame c.frame c.function c.cycles
            c.rdtsc M
          obtain ⟨h3, h4⟩ := moduleRecords_flush
            (afterModuleRecord L s capacity c.frame.args1 c.frame.args0 c.image) c.x2 M
          rw [h1, h2, h3, h4, moduleRecords_afterModuleRecord]
          refine ⟨fun m hm => List.mem_cons_of_mem _ hm, Nat.le_add_right _ _, ?_, ?_,
            fun h => (hno h).elim⟩
          · split_ifs <;> omega
          · intro hne
            have hM : c.frame.args0 = M := by
              by_contra hMne
              apply hne
              rw [if_neg hMne]
              rfl
            refine ⟨rfl, hsl, hM, hM ▸ hnotin, ?_⟩
            rw [← hM]
            exact List.mem_cons_self _ _

/-- Along a run of `OnModuleEntry` calls the number of module records for `M`
never decreases, grows by at most one, and does not grow at all once `M` is in
the ledger. -/
theorem runModuleCalls_effect (L : Layout) (pexit : Nat) (M : Nat) :
    ∀ (cs : List ModuleCall) (s : ThreadState),
      moduleRecords s M ≤ moduleRecords (runModuleCalls L pexit s cs) M ∧
      moduleRecords (runModuleCalls L pexit s cs) M ≤ moduleRecords s M + 1 ∧
      (M ∈ s.logged_modules_ →
        moduleRecords (runModuleCalls L pexit s cs) M = moduleRecords s M)
  | [], s => ⟨Nat.le_refl _, Nat.le_succ _, fun _ => rfl⟩
  | c :: cs, s => by
    obtain ⟨hsub, hge, hle, hchange, -⟩ := moduleStep_effect L pexit s c M
    obtain ⟨ih1, ih2, ih3⟩ := runModuleCalls_effect L pexit M cs (moduleStep L pexit s c)
    simp only [runModuleCalls]
    by_cases hsame : moduleRecords (moduleStep L pexit s c) M = moduleRecords s M
    · refine ⟨by omega, by omega, fun hin => ?_⟩
      rw [ih3 (hsub M hin), hsame]
    · obtain ⟨-, -, -, hnotin, hin⟩ := hchange hsame
      have := ih3 hin
      exact ⟨by omega, by omega, fun h => absurd h hnotin⟩

/-! ## C5: at most one module record per module -/

/-- C5: for every thread state, every sequence of `OnModuleEntry` calls and
every module handle `M`, the calls write at most one module record for `M`, and
none when `M` is already in `logged_modules_`; and a call whose reason is
neither `DLL_PROCESS_ATTACH` nor `DLL_THREAD_ATTACH` (a detach or an
unrecognised code) writes no module record and leaves `logged_modules_` as it
is. -/
theorem module_record_written_at_most_once (L : Layout) (pexit : Nat) (s : ThreadState)
    (cs : List ModuleCall) (M : Nat) :
    moduleRecords (runModuleCalls L pexit s cs) M ≤ moduleRecords s M + 1 ∧
    (M ∈ s.logged_modules_ →
      moduleRecords (runModuleCalls L pexit s cs) M = moduleRecords s M) ∧
    ∀ c : ModuleCall, c.frame.args1 ≠ DLL_PROCESS_ATTACH → c.frame.args1 ≠ DLL_THREAD_ATTACH →
      moduleRecords (moduleStep L pexit s c) M = moduleRecords s M ∧
      (moduleStep L pexit s c).logged_modules_ = s.logged_modules_ := by
  obtain ⟨-, h1, h2⟩ := runModuleCalls_effect L pexit M cs s
  refine ⟨h1, h2, fun c hp ht => ?_⟩
  have hsl : should_log_module c.frame.args1 = false := by
    simp [should_log_module, hp, ht]
  obtain ⟨-, -, -, -, h⟩ := moduleStep_effect L pexit s c M
  exact ⟨(h hsl).2, (h hsl).1⟩

/-- Two attach calls for one module, evaluated: the first writes the record,
the second writes nothing. -/
theorem second_attach_writes_nothing :
    moduleRecords (moduleStep layout32 samplePexit (initialState 4096)
      { is_disabled := false, is_disabled2 := false, entry_frame := 0x2000,
        frame := attachFrame, function := 0x10001000, cycles := 100, image := sampleImage,
        x1 := some 4096, x2 := some 4096, rdtsc := 110 }) 0x10000000 = 1 ∧
    moduleRecords (runModuleCalls layout32 samplePexit (initialState 4096)
      [ { is_disabled := false, is_disabled2 := false, entry_frame := 0x2000,
          frame := attachFrame, function := 0x10001000, cycles := 100, image := sampleImage,
          x1 := some 4096, x2 := some 4096, rdtsc := 110 },
        { is_disabled := false, is_disabled2 := false, entry_frame := 0x2000,
          frame := { attachFrame with args1 := DLL_THREAD_ATTACH }, function := 0x10001000,
          cycles := 200, image := sampleImage, x1 := some 4096, x2 := some 4096,
          rdtsc := 210 } ]) 0x10000000 = 1 := by
  decide

/-! ## C6: the flush in front of a module record -/

/-- C6 fails on the code: the condition `!CanAllocate(..) || !FlushSegment()`
returns at once when the record does not fit.  In `busyState` the record (1064
bytes with its prefix) does not fit into the 1024 free bytes, and the session
would hand out an empty buffer in which it fits; yet the hook makes no exchange,
writes no module record, puts the module in the ledger, pushes no shadow frame
and leaves the return address alone, so that a later attach for the module
writes nothing either.  When the record does fit (`initialState 4096`), the
hook exchanges the segment before placing the record: the record ends up in the
second segment handed to the session, not in the segment that was current. -/
theorem OnModuleEntry_returns_when_record_does_not_fit :
    busyState.segment_.CanAllocate layout32 layout32.sizeof_TraceModuleData = false ∧
    (TraceFileSegment.fresh 1200).CanAllocate layout32 layout32.sizeof_TraceModuleData = true ∧
    (OnModuleEntry layout32 samplePexit busyState false false 0x2000 attachFrame 0x10001000
      100 sampleImage (some 1200) (some 1200) 110).1 =
      { busyState with logged_modules_ := [0x10000000] } ∧
    (OnModuleEntry layout32 samplePexit busyState false false 0x2000 attachFrame 0x10001000
      100 sampleImage (some 1200) (some 1200) 110).2 = attachFrame ∧
    moduleRecords (OnModuleEntry layout32 samplePexit busyState false false 0x2000 attachFrame
      0x10001000 100 sampleImage (some 1200) (some 1200) 110).1 0x10000000 = 0 ∧
    moduleRecords (OnModuleEntry layout32 samplePexit
      (OnModuleEntry layout32 samplePexit busyState false false 0x2000 attachFrame
        0x10001000 100 sampleImage (some 1200) (some 1200) 110).1
      false false 0x2000 attachFrame 0x10001000 200 sampleImage (some 1200) (some 1200)
      210).1 0x10000000 = 0 ∧
    (initialState 4096).segment_.CanAllocate layout32 layout32.sizeof_TraceModuleData = true ∧
    (OnModuleEntry layout32 samplePexit (initialState 4096) false false 0x2000 attachFrame
      0x10001000 100 sampleImage (some 4096) (some 4096) 110).1.exchange_calls = 2 ∧
    List.map (moduleRecordsIn 0x10000000)
      (OnModuleEntry layout32 samplePexit (initialState 4096) false false 0x2000 attachFrame
        0x10001000 100 sampleImage (some 4096) (some 4096) 110).1.exchanged = [1, 0] := by
  decide

/-! ## C7: hooks of a disabled session -/

/-- C7: with the session disabled, `OnFunctionEntry` and `OnModuleEntry` return
the thread state (shadow stack, table, ledger, segment, open batch, overhead,
and the record of exchanges) and the entry frame exactly as they were, for
every input. -/
theorem disabled_hooks_change_nothing (L : Layout) (pexit : Nat) (s : ThreadState)
    (is_disabled2 : Bool) (entry_frame : Nat) (frame : EntryFrame) (function cycles : Nat)
    (image : PEImage) (x1 x2 : Option Nat) (rdtsc : Nat) :
    OnFunctionEntry pexit s true entry_frame frame function cycles rdtsc = (s, frame) ∧
    OnModuleEntry L pexit s true is_disabled2 entry_frame frame function cycles image x1 x2
      rdtsc = (s, frame) :=
  ⟨by simp [OnFunctionEntry], OnModuleEntry_disabled L pexit s is_disabled2 entry_frame frame
    function cycles image x1 x2 rdtsc⟩

/-! ## Filling a segment -/

/-- A call for a new key while the open batch can grow: the new cell is the one
at the write pointer, and the size in the header of the batch grows by one
`InvocationInfo`. -/
theorem RecordInvocation_grows (L : Layout) (s : ThreadState) (caller function d : Nat)
    (x : Option Nat) (b : Nat) (h0 : s.invocations_.lookup (caller, function) = none)
    (hb : s.batch_ = some b)
    (hr : s.segment_.CanAllocateRaw L.sizeof_InvocationInfo = true) :
    RecordInvocation L s caller function d x =
      { s with
          invocations_ := ((caller, function), s.segment_.write_ptr) :: s.invocations_
          segment_ :=
            ({ s.segment_.growRecord b L.sizeof_InvocationInfo with
                write_ptr := s.segment_.write_ptr + L.sizeof_InvocationInfo
                segment_length := (s.segment_.growRecord b L.sizeof_InvocationInfo).segment_length
                  + L.sizeof_InvocationInfo }).writeInfo s.segment_.write_ptr
              (firstCall L caller function d) } := by
  simp [RecordInvocation, AllocateInvocationInfo, h0, hb, hr, growRecord_write_ptr]

/-- A call for a new key while no batch can grow but a new batch record fits:
the record is placed at the write pointer and the new cell is its first one. -/
theorem RecordInvocation_new_batch (L : Layout) (s : ThreadState) (caller function d : Nat)
    (x : Option Nat) (h0 : s.invocations_.lookup (caller, function) = none)
    (h1 : (s.batch_.isSome && s.segment_.CanAllocateRaw L.sizeof_InvocationInfo) = false)
    (h2 : s.segment_.CanAllocate L L.sizeof_InvocationInfoBatch = true) :
    RecordInvocation L s caller function d x =
      { s with
          batch_ := some (s.segment_.write_ptr + L.sizeof_RecordPrefix)
          invocations_ :=
            ((caller, function), s.segment_.write_ptr + L.sizeof_RecordPrefix) :: s.invocations_
          segment_ :=
            (s.segment_.AllocateTraceRecordImpl L kInvocationInfoBatchType
              L.sizeof_InvocationInfoBatch).1.writeInfo
              (s.segment_.write_ptr + L.sizeof_RecordPrefix)
              (firstCall L caller function d) } := by
  unfold RecordInvocation AllocateInvocationInfo
  cases hb : s.batch_ with
  | none => simp [h0, h2, TraceFileSegment.AllocateTraceRecordImpl]
  | some b =>
    cases hr : s.segment_.CanAllocateRaw L.sizeof_InvocationInfo with
    | true => simp [hb, hr] at h1
    | false => simp [h0, h2, TraceFileSegment.AllocateTraceRecordImpl]

theorem growRecord_headers (seg : TraceFileSegment) (b n : Nat) (h : RecordPrefix)
    (hh : seg.headers.lookup b = some h) :
    (seg.growRecord b n).headers.lookup b = some { h with size := h.size + n } := by
  unfold TraceFileSegment.growRecord
  rw [hh]
  exact lookup_cons_self _ _ _

/-- Recording new, pairwise different keys while the open batch `b` can grow:
each key gets the next cell, nothing is exchanged, the cells below the old
write pointer keep their contents, and the header of the batch counts the new
cells. -/
theorem grow_run (L : Layout) :
    ∀ (cs : List Invocation) (s : ThreadState) (b : Nat), s.batch_ = some b →
      (cs.map Invocation.key).Nodup → (∀ c ∈ cs, s.invocations_.lookup c.key = none) →
      s.segment_.write_ptr + cs.length * L.sizeof_InvocationInfo ≤ s.segment_.end_ptr →
      (recordAll L s cs).batch_ = some b ∧
      (recordAll L s cs).segment_.write_ptr =
        s.segment_.write_ptr + cs.length * L.sizeof_InvocationInfo ∧
      (recordAll L s cs).segment_.end_ptr = s.segment_.end_ptr ∧
      (recordAll L s cs).exchanged = s.exchanged ∧
      (recordAll L s cs).exchange_calls = s.exchange_calls ∧
      (∀ k, (∀ c ∈ cs, c.key ≠ k) →
        (recordAll L s cs).invocations_.lookup k = s.invocations_.lookup k) ∧
      (∀ p, p < s.segment_.write_ptr →
        (recordAll L s cs).segment_.readInfo p = s.segment_.readInfo p) ∧
      (0 < L.sizeof_InvocationInfo → ∀ i c, cs[i]? = some c →
        (recordAll L s cs).segment_.readInfo
          (s.segment_.write_ptr + i * L.sizeof_InvocationInfo) =
          some (firstCall L c.caller c.function c.duration_cycles)) ∧
      (∀ h, s.segment_.headers.lookup b = some h →
        (recordAll L s cs).segment_.headers.lookup b =
          some { h with size := h.size + cs.length * L.sizeof_InvocationInfo })
  | [], s, b, hb, _, _, _ => by
    refine ⟨hb, by simp [recordAll], rfl, rfl, rfl, fun _ _ => rfl, fun _ _ => rfl,
      fun _ i c hc => by simp at hc, fun h hh => ?_⟩
    simpa [recordAll] using hh
  | c :: cs, s, b, hb, hnd, habs, hroom => by
    rw [List.map_cons, List.nodup_cons] at hnd
    rw [List.length_cons, Nat.succ_mul] at hroom
    have hraw : s.segment_.CanAllocateRaw L.sizeof_InvocationInfo = true := by
      simp only [TraceFileSegment.CanAllocateRaw, decide_eq_true_eq]
      omega
    have hstep := RecordInvocation_grows L s c.caller c.function c.duration_cycles c.x b
      (habs c (List.mem_cons_self _ _)) hb hraw
    have hne : ∀ c' ∈ cs, c'.key ≠ c.key := fun c' hc' e =>
      hnd.1 (List.mem_map.2 ⟨c', hc', e⟩)
    obtain ⟨ih1, ih2, ih3, ih4, ih5, ih6, ih7, ih8, ih9⟩ :=
      grow_run L cs (RecordInvocation L s c.caller c.function c.duration_cycles c.x) b
        (by rw [hstep]; exact hb) hnd.2
        (fun c' hc' => by
          rw [hstep]
          show List.lookup c'.key ((c.key, _) :: s.invocations_) = none
          rw [lookup_cons_ne _ _ _ _ (hne c' hc')]
          exact habs c' (List.mem_cons_of_mem _ hc'))
        (by
          rw [hstep]
          simp only [TraceFileSegment.writeInfo, growRecord_end_ptr]
          omega)
    rw [recordAll_cons]
    have hw : (RecordInvocation L s c.caller c.function c.duration_cycles c.x).segment_.write_ptr
        = s.segment_.write_ptr + L.sizeof_InvocationInfo := by rw [hstep]; rfl
    have hread : ∀ p,
        (RecordInvocation L s c.caller c.function c.duration_cycles c.x).segment_.readInfo p =
          if p = s.segment_.write_ptr
          then some (firstCall L c.caller c.function c.duration_cycles)
          else s.segment_.readInfo p := by
      intro p
      rw [hstep]
      simp only [TraceFileSegment.readInfo, TraceFileSegment.writeInfo,
        growRecord_invocation_info]
      split_ifs with hp
      · rw [hp, lookup_cons_self]
      · rw [lookup_cons_ne _ _ _ _ hp]
    refine ⟨ih1, ?_, ?_, ?_, ?_, ?_, ?_, ?_, ?_⟩
    · rw [ih2, hw, List.length_cons, Nat.succ_mul]; omega
    · rw [ih3, hstep]
      simp only [TraceFileSegment.writeInfo, growRecord_end_ptr]
    · rw [ih4, hstep]
    · rw [ih5, hstep]
    · intro k hk
      rw [ih6 k (fun c' hc' => hk c' (List.mem_cons_of_mem _ hc')), hstep]
      show List.lookup k ((c.key, _) :: s.invocations_) = _
      rw [lookup_cons_ne _ _ _ _ (fun e => hk c (List.mem_cons_self _ _) e.symm)]
    · intro p hp
      rw [ih7 p (by rw [hw]; omega), hread, if_neg (Nat.ne_of_lt hp)]
    · intro hI i c' hc'
      cases i with
      | zero =>
        simp only [List.getElem?_cons_zero, Option.some.injEq] at hc'
        subst hc'
        rw [Nat.zero_mul, Nat.add_zero, ih7 _ (by rw [hw]; omega), hread, if_pos rfl]
      | succ i =>
        simp only [List.getElem?_cons_succ] at hc'
        have := ih8 hI i c' hc'
        rw [hw] at this
        rw [Nat.succ_mul, ← this]
        congr 1
        omega
    · intro h hh
      have h1 : (RecordInvocation L s c.caller c.function c.duration_cycles c.x
          ).segment_.headers.lookup b =
          some { h with size := h.size + L.sizeof_InvocationInfo } := by
        rw [hstep]
        simp only [TraceFileSegment.writeInfo]
        exact growRecord_headers s.segment_ b _ h hh
      rw [ih9 _ h1, List.length_cons, Nat.succ_mul]
      simp only [Option.some.injEq, RecordPrefix.mk.injEq, true_and]
      omega

theorem recordAll_append (L : Layout) :
    ∀ (as bs : List Invocation) (s : ThreadState),
      recordAll L s (as ++ bs) = recordAll L (recordAll L s as) bs
  | [], _, _ => rfl
  | a :: as, bs, s => by
    rw [List.cons_append, recordAll_cons, recordAll_cons, recordAll_append L as bs]

theorem reachesFlush_of (L : Layout) (s : ThreadState) (key : InvocationKey)
    (h0 : s.invocations_.lookup key = none)
    (h1 : (s.batch_.isSome && s.segment_.CanAllocateRaw L.sizeof_InvocationInfo) = false)
    (h2 : s.segment_.CanAllocate L L.sizeof_InvocationInfoBatch = false) :
    reachesFlush L s key = true := by
  simp [reachesFlush, h0, h1, h2]

theorem firstCall_num_calls (L : Layout) (hL : L.Valid) (caller function d : Nat) :
    (firstCall L caller function d).num_calls = 1 := by
  have h : 1 < 2 ^ L.num_calls_bits := Nat.one_lt_two_pow (Nat.pos_iff_ne_zero.1 hL.2.2)
  simp only [firstCall]
  exact Nat.mod_eq_of_lt h

/-- The state after the first `K` of `K + 1` new keys when the segment has room
for exactly `K` records: one batch record holds them, nothing was exchanged,
and the next new key reaches `FlushSegment`. -/
theorem fill_segment (L : Layout) (hL : L.Valid) (s : ThreadState) (first : Invocation)
    (mid : List Invocation) (last : Invocation)
    (hb : s.batch_ = none) (ht : s.invocations_ = [])
    (hnd : ((first :: mid ++ [last]).map Invocation.key).Nodup)
    (hfit : s.segment_.write_ptr + L.sizeof_RecordPrefix + L.sizeof_InvocationInfoBatch
      + mid.length * L.sizeof_InvocationInfo ≤ s.segment_.end_ptr)
    (hfull : s.segment_.end_ptr < s.segment_.write_ptr + L.sizeof_RecordPrefix
      + L.sizeof_InvocationInfoBatch + (mid.length + 1) * L.sizeof_InvocationInfo) :
    (recordAll L s (first :: mid)).exchanged = s.exchanged ∧
    (recordAll L s (first :: mid)).exchange_calls = s.exchange_calls ∧
    (recordAll L s (first :: mid)).segment_.readInfo
      (s.segment_.write_ptr + L.sizeof_RecordPrefix) =
      some (firstCall L first.caller first.function first.duration_cycles) ∧
    (∀ i c, mid[i]? = some c →
      (recordAll L s (first :: mid)).segment_.readInfo
        (s.segment_.write_ptr + L.sizeof_RecordPrefix + L.sizeof_InvocationInfoBatch
          + i * L.sizeof_InvocationInfo) =
        some (firstCall L c.caller c.function c.duration_cycles)) ∧
    (recordAll L s (first :: mid)).segment_.headers.lookup
      (s.segment_.write_ptr + L.sizeof_RecordPrefix) =
      some { type := kInvocationInfoBatchType,
             size := L.sizeof_InvocationInfoBatch + mid.length * L.sizeof_InvocationInfo } ∧
    reachesFlush L (recordAll L s (first :: mid)) last.key = true := by
  obtain ⟨hle, hpos, -⟩ := hL
  rw [Nat.succ_mul] at hfull
  rw [List.cons_append, List.map_cons, List.nodup_cons, List.map_append, List.nodup_append]
    at hnd
  obtain ⟨hfirst, hmid, hlast, hdisj⟩ := hnd
  have h0 : s.invocations_.lookup (first.caller, first.function) = none := by rw [ht]; rfl
  have h1 : (s.batch_.isSome && s.segment_.CanAllocateRaw L.sizeof_InvocationInfo) = false := by
    rw [hb]; rfl
  have h2 : s.segment_.CanAllocate L L.sizeof_InvocationInfoBatch = true := by
    simp only [TraceFileSegment.CanAllocate, TraceFileSegment.CanAllocateRaw,
      decide_eq_true_eq]
    omega
  have hstep := RecordInvocation_new_batch L s first.caller first.function
    first.duration_cycles first.x h0 h1 h2
  have hkey1 : ∀ c ∈ mid, c.key ≠ first.key := fun c hc e =>
    hfirst (List.mem_append_left _ (List.mem_map.2 ⟨c, hc, e⟩))
  have hlast1 : last.key ≠ first.key := fun e =>
    hfirst (List.mem_append_right _ (by simp [e]))
  have hlast2 : ∀ c ∈ mid, c.key ≠ last.key := fun c hc e =>
    hdisj (List.mem_map.2 ⟨c, hc, rfl⟩) (by simp [e])
  obtain ⟨g1, g2, g3, g4, g5, g6, g7, g8, g9⟩ :=
    grow_run L mid (RecordInvocation L s first.caller first.function first.duration_cycles
        first.x) (s.segment_.write_ptr + L.sizeof_RecordPrefix)
      (by rw [hstep]) hmid
      (fun c hc => by
        rw [hstep, ht]
        show List.lookup c.key [(first.key, _)] = none
        rw [lookup_cons_ne _ _ _ _ (hkey1 c hc)]
        rfl)
      (by
        rw [hstep]
        simp only [TraceFileSegment.writeInfo, TraceFileSegment.AllocateTraceRecordImpl]
        omega)
  have hw : (RecordInvocation L s first.caller first.function first.duration_cycles
      first.x).segment_.write_ptr =
      s.segment_.write_ptr + L.sizeof_RecordPrefix + L.sizeof_InvocationInfoBatch := by
    rw [hstep]
    simp only [TraceFileSegment.writeInfo, TraceFileSegment.AllocateTraceRecordImpl]
    omega
  have he : (RecordInvocation L s first.caller first.function first.duration_cycles
      first.x).segment_.end_ptr = s.segment_.end_ptr := by rw [hstep]; rfl
  rw [recordAll_cons]
  refine ⟨?_, ?_, ?_, ?_, ?_, ?_⟩
  · rw [g4, hstep]
  · rw [g5, hstep]
  · rw [g7 _ (by rw [hw]; omega), hstep]
    simp only [TraceFileSegment.readInfo, TraceFileSegment.writeInfo]
    exact lookup_cons_self _ _ _
  · intro i c hc
    have := g8 hpos i c hc
    rw [hw] at this
    exact this
  · have hh : (RecordInvocation L s first.caller first.function first.duration_cycles
        first.x).segment_.headers.lookup (s.segment_.write_ptr + L.sizeof_RecordPrefix) =
        some { type := kInvocationInfoBatchType, size := L.sizeof_InvocationInfoBatch } := by
      rw [hstep]
      simp only [TraceFileSegment.writeInfo, TraceFileSegment.AllocateTraceRecordImpl]
      exact lookup_cons_self _ _ _
    exact g9 _ hh
  · apply reachesFlush_of
    · rw [g6 _ hlast2, hstep, ht]
      show List.lookup last.key [(first.key, _)] = none
      rw [lookup_cons_ne _ _ _ _ hlast1]
      rfl
    · rw [g1]
      simp only [Option.isSome_some, Bool.true_and, TraceFileSegment.CanAllocateRaw,
        decide_eq_false_iff_not, g2, g3, hw, he]
      omega
    · simp only [TraceFileSegment.CanAllocate, TraceFileSegment.CanAllocateRaw,
        decide_eq_false_iff_not, g2, g3, hw, he]
      omega

/-! ## C8: segment rollover -/

/-- C8: (1) when `RecordInvocation` is called with a key that is not in the
table, the open batch cannot grow by one `InvocationInfo`, a new batch record
does not fit and the exchange succeeds, then the old segment is handed to the
session in the one exchange made, the table holds exactly the new key, the
open batch is the only record of the new segment, and the key's record is the
first cell of that batch with `num_calls = 1`.  (2) With room for exactly
`K = mid.length + 1` records in a segment without an open batch, recording
`K + 1` pairwise different keys makes exactly one exchange; the segment handed
over is the one holding the first `K` records in one batch, and the last key is
the only one in the table, bound to the first cell of the new segment. -/
theorem segment_rollover (L : Layout) (hL : L.Valid) :
    (∀ (s : ThreadState) (caller function d capacity : Nat),
      s.invocations_.lookup (caller, function) = none →
      (s.batch_.isSome && s.segment_.CanAllocateRaw L.sizeof_InvocationInfo) = false →
      s.segment_.CanAllocate L L.sizeof_InvocationInfoBatch = false →
      (RecordInvocation L s caller function d (some capacity)).invocations_ =
        [((caller, function), L.sizeof_RecordPrefix)] ∧
      (RecordInvocation L s caller function d (some capacity)).batch_ =
        some L.sizeof_RecordPrefix ∧
      (RecordInvocation L s caller function d (some capacity)).segment_.headers =
        [(L.sizeof_RecordPrefix,
          { type := kInvocationInfoBatchType, size := L.sizeof_InvocationInfoBatch })] ∧
      (RecordInvocation L s caller function d (some capacity)).segment_.end_ptr = capacity ∧
      (RecordInvocation L s caller function d (some capacity)).segment_.invocation_info =
        [(L.sizeof_RecordPrefix,
          { caller := caller, function := function, num_calls := 1,
            cycles_min := d, cycles_max := d, cycles_sum := d })] ∧
      (RecordInvocation L s caller function d (some capacity)).exchanged =
        s.segment_ :: s.exchanged ∧
      (RecordInvocation L s caller function d (some capacity)).exchange_calls =
        s.exchange_calls + 1) ∧
    (∀ (s : ThreadState) (first : Invocation) (mid : List Invocation) (last : Invocation)
      (capacity : Nat),
      s.batch_ = none → s.invocations_ = [] → last.x = some capacity →
      ((first :: mid ++ [last]).map Invocation.key).Nodup →
      s.segment_.write_ptr + L.sizeof_RecordPrefix + L.sizeof_InvocationInfoBatch
        + mid.length * L.sizeof_InvocationInfo ≤ s.segment_.end_ptr →
      s.segment_.end_ptr < s.segment_.write_ptr + L.sizeof_RecordPrefix
        + L.sizeof_InvocationInfoBatch + (mid.length + 1) * L.sizeof_InvocationInfo →
      (recordAll L s (first :: mid ++ [last])).exchange_calls = s.exchange_calls + 1 ∧
      (recordAll L s (first :: mid ++ [last])).exchanged =
        (recordAll L s (first :: mid)).segment_ :: s.exchanged ∧
      (recordAll L s (first :: mid)).segment_.readInfo
        (s.segment_.write_ptr + L.sizeof_RecordPrefix) =
        some (firstCall L first.caller first.function first.duration_cycles) ∧
      (∀ i c, mid[i]? = some c →
        (recordAll L s (first :: mid)).segment_.readInfo
          (s.segment_.write_ptr + L.sizeof_RecordPrefix + L.sizeof_InvocationInfoBatch
            + i * L.sizeof_InvocationInfo) =
          some (firstCall L c.caller c.function c.duration_cycles)) ∧
      (recordAll L s (first :: mid)).segment_.headers.lookup
        (s.segment_.write_ptr + L.sizeof_RecordPrefix) =
        some { type := kInvocationInfoBatchType,
               size := L.sizeof_InvocationInfoBatch
                 + mid.length * L.sizeof_InvocationInfo } ∧
      (recordAll L s (first :: mid ++ [last])).invocations_ =
        [(last.key, L.sizeof_RecordPrefix)] ∧
      (recordAll L s (first :: mid ++ [last])).batch_ = some L.sizeof_RecordPrefix ∧
      (recordAll L s (first :: mid ++ [last])).segment_.invocation_info =
        [(L.sizeof_RecordPrefix,
          firstCall L last.caller last.function last.duration_cycles)]) := by
  constructor
  · intro s caller function d capacity h0 h1 h2
    rw [RecordInvocation_flush_succeeds L s caller function d capacity
      (reachesFlush_of L s _ h0 h1 h2)]
    have hn := firstCall_num_calls L hL caller function d
    simp only [firstCall] at hn
    simp only [afterRollover, TraceFileSegment.writeInfo, firstCall, hn, and_self]
  · intro s first mid last capacity hb ht hx hnd hfit hfull
    obtain ⟨f1, f2, f3, f4, f5, f6⟩ := fill_segment L hL s first mid last hb ht hnd hfit hfull
    have hrun : recordAll L s (first :: mid ++ [last]) =
        RecordInvocation L (recordAll L s (first :: mid)) last.caller last.function
          last.duration_cycles (some capacity) := by
      rw [recordAll_append, recordAll_cons, hx]
      rfl
    rw [hrun, RecordInvocation_flush_succeeds L _ _ _ _ _ f6]
    refine ⟨?_, ?_, f3, f4, f5, rfl, rfl, rfl⟩
    · simp only [afterRollover]
      rw [f2]
    · simp only [afterRollover]
      rw [f1]

/-- The theorem of C8 on `fullState`: a fifth key rolls the segment over, and
the five calls from `initialState 176` (room for exactly four records) make
exactly one exchange, handing over the segment with the first four records. -/
theorem segment_rollover_witness :
    layout32.Valid ∧
    fullState.invocations_.lookup (0x401000, 0x406000) = none ∧
    (fullState.batch_.isSome &&
      fullState.segment_.CanAllocateRaw layout32.sizeof_InvocationInfo) = false ∧
    fullState.segment_.CanAllocate layout32 layout32.sizeof_InvocationInfoBatch = false ∧
    ((RecordInvocation layout32 fullState 0x401000 0x406000 14 (some 176)).invocations_ =
        [((0x401000, 0x406000), 16)] ∧
      (RecordInvocation layout32 fullState 0x401000 0x406000 14 (some 176)).batch_ = some 16 ∧
      (RecordInvocation layout32 fullState 0x401000 0x406000 14 (some 176)).segment_.headers =
        [(16, { type := kInvocationInfoBatchType, size := 40 })] ∧
      (RecordInvocation layout32 fullState 0x401000 0x406000 14 (some 176)).segment_.end_ptr
        = 176 ∧
      (RecordInvocation layout32 fullState 0x401000 0x406000 14
          (some 176)).segment_.invocation_info =
        [(16, { caller := 0x401000, function := 0x406000, num_calls := 1,
                cycles_min := 14, cycles_max := 14, cycles_sum := 14 })] ∧
      (RecordInvocation layout32 fullState 0x401000 0x406000 14 (some 176)).exchanged =
        fullState.segment_ :: fullState.exchanged ∧
      (RecordInvocation layout32 fullState 0x401000 0x406000 14 (some 176)).exchange_calls =
        fullState.exchange_calls + 1) ∧
    ((fourCalls ++ [fifthCall]).map Invocation.key).Nodup ∧
    (recordAll layout32 (initialState 176) (fourCalls ++ [fifthCall])).exchange_calls = 1 ∧
    (recordAll layout32 (initialState 176) (fourCalls ++ [fifthCall])).exchanged =
      [fullState.segment_] ∧
    (recordAll layout32 (initialState 176) (fourCalls ++ [fifthCall])).invocations_ =
      [((0x401000, 0x406000), 16)] :=
  have h := segment_rollover layout32 (by decide)
  have h2 := h.2 (initialState 176)
    { caller := 0x401000, function := 0x402000, duration_cycles := 10, x := none }
    [ { caller := 0x401000, function := 0x403000, duration_cycles := 11, x := none },
      { caller := 0x401000, function := 0x404000, duration_cycles := 12, x := none },
      { caller := 0x401000, function := 0x405000, duration_cycles := 13, x := none } ]
    fifthCall 176 (by decide) (by decide) (by decide) (by decide) (by decide) (by decide)
  ⟨by decide, by decide, by decide, by decide,
    h.1 fullState 0x401000 0x406000 14 176 (by decide) (by decide) (by decide),
    by decide, h2.1, h2.2.1, h2.2.2.2.2.2.1⟩

/-- The segment handed over in the example of C8, evaluated: one batch record
of `40 + 3 * 40` bytes holding the four records in call order. -/
theorem fullState_segment :
    fullState.segment_.headers.lookup 16 =
      some { type := kInvocationInfoBatchType, size := 160 } ∧
    List.map (fun p => Option.map (fun i => (i.function, i.num_calls))
        (fullState.segment_.readInfo p)) [16, 56, 96, 136] =
      [some (0x402000, 1), some (0x403000, 1), some (0x404000, 1), some (0x405000, 1)] ∧
    fullState.segment_.write_ptr = 176 ∧ fullState.exchange_calls = 0 := by
  decide

/-! ## C9: the sample is dropped when the exchange fails -/

/-- C9: when `RecordInvocation` is called with a key that is not in the table,
the open batch cannot grow, a new batch record does not fit and the exchange
fails, then `AllocateInvocationInfo` returns `NULL`, the segment is left as it
was (no `InvocationInfo` is written), the key is not bound in the table, and
`RecordInvocation` returns; an `OnFunctionExit` that pops a frame with this key
still returns that frame's return address. -/
theorem sample_dropped_when_exchange_fails (L : Layout) (s : ThreadState)
    (caller function d : Nat)
    (h0 : s.invocations_.lookup (caller, function) = none)
    (h1 : (s.batch_.isSome && s.segment_.CanAllocateRaw L.sizeof_InvocationInfo) = false)
    (h2 : s.segment_.CanAllocate L L.sizeof_InvocationInfoBatch = false) :
    (AllocateInvocationInfo L s none).2 = none ∧
    (RecordInvocation L s caller function d none).segment_ = s.segment_ ∧
    (RecordInvocation L s caller function d none).invocations_.lookup (caller, function) = none ∧
    (RecordInvocation L s caller function d none).exchanged = s.exchanged ∧
    ∀ (stack_pointer cycles_exit rdtsc : Nat) (entry : StackEntry) (rest : List StackEntry),
      Pop (TrimOrphansOnExit s.stack_ stack_pointer) = some (entry, rest) →
      entry.caller = caller → entry.function = function →
      ∃ s1, OnFunctionExit L s stack_pointer cycles_exit none rdtsc =
          some (s1, entry.return_address) ∧
        s1.segment_ = s.segment_ ∧
        s1.invocations_.lookup (caller, function) = none ∧ s1.stack_ = rest := by
  refine ⟨?_, ?_, ?_, ?_, ?_⟩
  · rw [alloc_flush_fails L s h1 h2]
  · rw [RecordInvocation_flush_fails L s _ _ _ (reachesFlush_of L s _ h0 h1 h2)]
    rfl
  · rw [RecordInvocation_flush_fails L s _ _ _ (reachesFlush_of L s _ h0 h1 h2)]
    rfl
  · rw [RecordInvocation_flush_fails L s _ _ _ (reachesFlush_of L s _ h0 h1 h2)]
    rfl
  · intro sp cycles_exit rdtsc entry rest hpop hc hf
    subst hc hf
    unfold OnFunctionExit
    rw [hpop]
    have hrf : reachesFlush L { s with stack_ := rest } (entry.caller, entry.function)
        = true := reachesFlush_of L _ _ h0 h1 h2
    simp only [RecordInvocation_flush_fails L _ _ _ _ hrf]
    exact ⟨_, rfl, rfl, rfl, rfl⟩

/-- The theorem of C9 on `fullState` and a fifth key. -/
theorem sample_dropped_when_exchange_fails_witness :
    fullState.invocations_.lookup (0x401000, 0x406000) = none ∧
    (fullState.batch_.isSome &&
      fullState.segment_.CanAllocateRaw layout32.sizeof_InvocationInfo) = false ∧
    fullState.segment_.CanAllocate layout32 layout32.sizeof_InvocationInfoBatch = false ∧
    ((AllocateInvocationInfo layout32 fullState none).2 = none ∧
    (RecordInvocation layout32 fullState 0x401000 0x406000 14 none).segment_ =
      fullState.segment_ ∧
    (RecordInvocation layout32 fullState 0x401000 0x406000 14 none).invocations_.lookup
      (0x401000, 0x406000) = none ∧
    (RecordInvocation layout32 fullState 0x401000 0x406000 14 none).exchanged =
      fullState.exchanged ∧
    ∀ (stack_pointer cycles_exit rdtsc : Nat) (entry : StackEntry) (rest : List StackEntry),
      Pop (TrimOrphansOnExit fullState.stack_ stack_pointer) = some (entry, rest) →
      entry.caller = 0x401000 → entry.function = 0x406000 →
      ∃ s1, OnFunctionExit layout32 fullState stack_pointer cycles_exit none rdtsc =
          some (s1, entry.return_address) ∧
        s1.segment_ = fullState.segment_ ∧
        s1.invocations_.lookup (0x401000, 0x406000) = none ∧ s1.stack_ = rest) :=
  ⟨by decide, by decide, by decide,
    sample_dropped_when_exchange_fails layout32 fullState 0x401000 0x406000 14 (by decide)
      (by decide) (by decide)⟩

/-- The exit hook on a full segment with a failing exchange, evaluated: the
function entered in a thread whose segment is `fullState.segment_` returns to
`0x401000`, and no record is bound or written for it. -/
theorem exit_on_full_segment :
    Option.map (fun r => (r.2, r.1.invocations_, r.1.stack_,
        decide (r.1.segment_ = fullState.segment_)))
      (OnFunctionExit layout32
        (OnFunctionEntry samplePexit fullState false 0x2000 sampleFrame 0x406000 100 110).1
        0x2000 130 none 140) =
      some (0x401000, [], [], true) := by
  decide

/-! ## The coalescing invariant -/

theorem slots_succ (L : Layout) (b n : Nat) :
    ((List.range (n + 1 + 1)).map (slotAddress L b)).reverse =
      (b + L.sizeof_InvocationInfoBatch + n * L.sizeof_InvocationInfo) ::
        ((List.range (n + 1)).map (slotAddress L b)).reverse := by
  rw [List.range_succ, List.map_append, List.reverse_append]
  rfl

theorem CoalescedOn_empty (L : Layout) (seg : TraceFileSegment) : CoalescedOn L [] seg none :=
  rfl

/-- A table with one key bound to the first cell of a batch that has just been
placed satisfies the invariant. -/
theorem CoalescedOn_single (L : Layout) (key : InvocationKey) (seg : TraceFileSegment) (b : Nat)
    (info : InvocationInfo)
    (hh : seg.headers.lookup b = some
      { type := kInvocationInfoBatchType, size := L.sizeof_InvocationInfoBatch })
    (hw : seg.write_ptr = b + L.sizeof_InvocationInfoBatch)
    (hr : seg.readInfo b = some info) (hc : info.caller = key.1) (hf : info.function = key.2) :
    CoalescedOn L [(key, b)] seg (some b) := by
  refine ⟨0, rfl, ?_, ?_, ?_, ?_, ?_⟩
  · rw [hh, Nat.zero_mul, Nat.add_zero]
  · rw [hw, Nat.zero_mul, Nat.add_zero]
  · rfl
  · simp
  · intro kp hkp
    rw [List.mem_singleton] at hkp
    subst hkp
    exact ⟨info, hr, hc, hf⟩

/-- A call that reaches `FlushSegment` re-establishes the invariant from
nothing: the table is empty afterwards, or holds just the new key in the first
cell of a new batch. -/
theorem CoalescedOn_after_flush (L : Layout) (s : ThreadState) (caller function d : Nat)
    (x : Option Nat) (h : reachesFlush L s (caller, function) = true) :
    CoalescedOn L (RecordInvocation L s caller function d x).invocations_
      (RecordInvocation L s caller function d x).segment_
      (RecordInvocation L s caller function d x).batch_ := by
  cases x with
  | none =>
    rw [RecordInvocation_flush_fails L s _ _ _ h]
    exact CoalescedOn_empty L _
  | some capacity =>
    rw [RecordInvocation_flush_succeeds L s _ _ _ _ h]
    exact CoalescedOn_single L (caller, function) _ L.sizeof_RecordPrefix
      (firstCall L caller function d) (lookup_cons_self _ _ _) rfl (lookup_cons_self _ _ _)
      rfl rfl

/-- The method `RecordInvocation` keeps the coalescing invariant, whatever path
it takes. -/
theorem RecordInvocation_coalesced (L : Layout) (hL : L.Valid) (s : ThreadState)
    (h : Coalesced L s) (caller function d : Nat) (x : Option Nat) :
    Coalesced L (RecordInvocation L s caller function d x) := by
  refine ⟨RecordInvocation_sound L hL s h.1 caller function d x, ?_⟩
  obtain ⟨hle, hpos, -⟩ := hL
  have hc := h.2
  cases hb : s.batch_ with
  | none =>
    rw [hb] at hc
    have ht : s.invocations_ = [] := hc
    have h0 : s.invocations_.lookup (caller, function) = none := by rw [ht]; rfl
    have h1 : (s.batch_.isSome && s.segment_.CanAllocateRaw L.sizeof_InvocationInfo)
        = false := by rw [hb]; rfl
    cases h2 : s.segment_.CanAllocate L L.sizeof_InvocationInfoBatch with
    | false => exact CoalescedOn_after_flush L s _ _ _ _ (reachesFlush_of L s _ h0 h1 h2)
    | true =>
      rw [RecordInvocation_new_batch L s _ _ _ _ h0 h1 h2]
      show CoalescedOn L
        (((caller, function), s.segment_.write_ptr + L.sizeof_RecordPrefix) :: s.invocations_)
        _ (some (s.segment_.write_ptr + L.sizeof_RecordPrefix))
      rw [ht]
      refine CoalescedOn_single L (caller, function) _ _ (firstCall L caller function d)
        (lookup_cons_self _ _ _) ?_ (lookup_cons_self _ _ _) rfl rfl
      simp only [TraceFileSegment.writeInfo, TraceFileSegment.AllocateTraceRecordImpl]
      omega
  | some b =>
    rw [hb] at hc
    obtain ⟨n, hlen, hhead, hw, hsnd, hkeys, hread⟩ := hc
    cases hlk : s.invocations_.lookup (caller, function) with
    | some it =>
      obtain ⟨info, hinfo, -, -⟩ := hread _ (lookup_mem _ _ _ hlk)
      rw [RecordInvocation_present L s _ _ _ _ it info hlk hinfo]
      show CoalescedOn L s.invocations_ (s.segment_.writeInfo it (tally L info d)) s.batch_
      rw [hb]
      refine ⟨n, hlen, hhead, hw, hsnd, hkeys, fun kp hkp => ?_⟩
      obtain ⟨info0, hr0, hc0, hf0⟩ := hread kp hkp
      simp only [TraceFileSegment.readInfo, TraceFileSegment.writeInfo]
      by_cases hp : kp.2 = it
      · rw [hp, lookup_cons_self]
        rw [hp] at hr0
        have e : info0 = info := Option.some.inj (hr0.symm.trans hinfo)
        subst e
        exact ⟨_, rfl, by rw [(tally_caller L info0 d).1]; exact hc0,
          by rw [(tally_caller L info0 d).2]; exact hf0⟩
      · rw [lookup_cons_ne _ _ _ _ hp]
        exact ⟨info0, hr0, hc0, hf0⟩
    | none =>
      cases hr : s.segment_.CanAllocateRaw L.sizeof_InvocationInfo with
      | false =>
        refine CoalescedOn_after_flush L s _ _ _ _ (reachesFlush_of L s _ hlk ?_ ?_)
        · rw [hr, Bool.and_false]
        · simp only [TraceFileSegment.CanAllocateRaw, decide_eq_false_iff_not] at hr
          simp only [TraceFileSegment.CanAllocate, TraceFileSegment.CanAllocateRaw,
            decide_eq_false_iff_not]
          omega
      | true =>
        rw [RecordInvocation_grows L s _ _ _ _ b hlk hb hr]
        show CoalescedOn L (((caller, function), s.segment_.write_ptr) :: s.invocations_)
          _ s.batch_
        rw [hb]
        refine ⟨n + 1, by rw [List.length_cons, hlen], ?_, ?_, ?_, ?_, ?_⟩
        · simp only [TraceFileSegment.writeInfo]
          rw [growRecord_headers s.segment_ b _ _ hhead, Nat.succ_mul]
          simp only [Option.some.injEq, RecordPrefix.mk.injEq, true_and]
          omega
        · simp only [TraceFileSegment.writeInfo]
          rw [hw, Nat.succ_mul]
          omega
        · rw [List.map_cons, slots_succ, hsnd, hw]
        · rw [List.map_cons, List.nodup_cons]
          exact ⟨lookup_none_not_mem_keys _ _ hlk, hkeys⟩
        · intro kp hkp
          simp only [TraceFileSegment.readInfo, TraceFileSegment.writeInfo,
            growRecord_invocation_info]
          rcases List.mem_cons.1 hkp with e | m
          · subst e
            rw [lookup_cons_self]
            exact ⟨_, rfl, rfl, rfl⟩
          · have hne : kp.2 ≠ s.segment_.write_ptr := Nat.ne_of_lt (h.1.1 kp m)
            rw [lookup_cons_ne _ _ _ _ hne]
            exact hread kp m

theorem Coalesced_of_fields (L : Layout) (s s1 : ThreadState)
    (ht : s1.invocations_ = s.invocations_) (hseg : s1.segment_ = s.segment_)
    (hb : s1.batch_ = s.batch_) (h : Coalesced L s) : Coalesced L s1 := by
  unfold Coalesced TableSound at h ⊢
  rw [ht, hseg, hb]
  exact h

theorem Coalesced_cleared (L : Layout) (s : ThreadState) (ht : s.invocations_ = [])
    (hb : s.batch_ = none) : Coalesced L s := by
  unfold Coalesced TableSound
  rw [ht, hb]
  exact ⟨⟨fun _ hkp => (by cases hkp), List.nodup_nil⟩, rfl⟩

theorem FlushSegment_cleared (s : ThreadState) (x : Option Nat) :
    (FlushSegment s x).1.invocations_ = [] ∧ (FlushSegment s x).1.batch_ = none := by
  cases x <;> exact ⟨rfl, rfl⟩

theorem OnFunctionEntry_fields (pexit : Nat) (s : ThreadState) (is_disabled : Bool)
    (entry_frame : Nat) (frame : EntryFrame) (function cycles rdtsc : Nat) :
    (OnFunctionEntry pexit s is_disabled entry_frame frame function cycles rdtsc).1.invocations_
      = s.invocations_ ∧
    (OnFunctionEntry pexit s is_disabled entry_frame frame function cycles rdtsc).1.segment_
      = s.segment_ ∧
    (OnFunctionEntry pexit s is_disabled entry_frame frame function cycles rdtsc).1.batch_
      = s.batch_ := by
  unfold OnFunctionEntry
  split_ifs <;> exact ⟨rfl, rfl, rfl⟩

theorem OnFunctionEntry_coalesced (L : Layout) (pexit : Nat) (s : ThreadState)
    (h : Coalesced L s) (is_disabled : Bool) (entry_frame : Nat) (frame : EntryFrame)
    (function cycles rdtsc : Nat) :
    Coalesced L
      (OnFunctionEntry pexit s is_disabled entry_frame frame function cycles rdtsc).1 := by
  obtain ⟨h1, h2, h3⟩ :=
    OnFunctionEntry_fields pexit s is_disabled entry_frame frame function cycles rdtsc
  exact Coalesced_of_fields L s _ h1 h2 h3 h

theorem OnFunctionExit_coalesced (L : Layout) (hL : L.Valid) (s : ThreadState)
    (h : Coalesced L s) (stack_pointer cycles_exit : Nat) (x : Option Nat) (rdtsc : Nat)
    (r : ThreadState × Nat)
    (hr : OnFunctionExit L s stack_pointer cycles_exit x rdtsc = some r) :
    Coalesced L r.1 := by
  unfold OnFunctionExit at hr
  cases hpop : Pop (TrimOrphansOnExit s.stack_ stack_pointer) with
  | none => rw [hpop] at hr; cases hr
  | some top =>
    obtain ⟨entry, rest⟩ := top
    rw [hpop] at hr
    simp only [Option.some.injEq] at hr
    subst hr
    have h1 : Coalesced L { s with stack_ := rest } :=
      Coalesced_of_fields L s _ rfl rfl rfl h
    exact Coalesced_of_fields L _ _ rfl rfl rfl
      (RecordInvocation_coalesced L hL _ h1 entry.caller entry.function _ x)

theorem moduleStep_coalesced (L : Layout) (pexit : Nat) (s : ThreadState)
    (h : Coalesced L s) (c : ModuleCall) : Coalesced L (moduleStep L pexit s c) := by
  unfold moduleStep
  cases hdis : c.is_disabled with
  | true =>
    rw [OnModuleEntry_disabled]
    exact h
  | false =>
    cases hlog : (should_log_module c.frame.args1 &&
        !(s.logged_modules_.contains c.frame.args0)) with
    | false =>
      rw [OnModuleEntry_not_logged L pexit s _ _ _ _ _ _ _ _ _ hlog]
      exact OnFunctionEntry_coalesced L pexit s h _ _ _ _ _ _
    | true =>
      cases hfit : s.segment_.CanAllocate L L.sizeof_TraceModuleData with
      | false =>
        rw [OnModuleEntry_no_room L pexit s _ _ _ _ _ _ _ _ _ hlog hfit]
        exact Coalesced_of_fields L s _ rfl rfl rfl h
      | true =>
        cases hx1 : c.x1 with
        | none =>
          rw [OnModuleEntry_flush_fails L pexit s _ _ _ _ _ _ _ _ hlog hfit]
          exact Coalesced_cleared L _ rfl rfl
        | some capacity =>
          rw [OnModuleEntry_logs L pexit s _ _ _ _ _ _ _ _ _ hlog hfit]
          obtain ⟨h1, h2⟩ := FlushSegment_cleared
            (afterModuleRecord L s capacity c.frame.args1 c.frame.args0 c.image) c.x2
          exact OnFunctionEntry_coalesced L pexit _ (Coalesced_cleared L _ h1 h2) _ _ _ _ _ _

theorem eventStep_coalesced (L : Layout) (hL : L.Valid) (pexit : Nat) (s : ThreadState)
    (h : Coalesced L s) (e : ThreadEvent) (s1 : ThreadState)
    (hstep : eventStep L pexit s e = some s1) : Coalesced L s1 := by
  cases e with
  | moduleEntry c =>
    simp only [eventStep, Option.some.injEq] at hstep
    subst hstep
    exact moduleStep_coalesced L pexit s h c
  | flush x =>
    simp only [eventStep, Option.some.injEq] at hstep
    subst hstep
    obtain ⟨h1, h2⟩ := FlushSegment_cleared s x
    exact Coalesced_cleared L _ h1 h2
  | function hk =>
    cases hk with
    | entry is_disabled entry_frame frame function cycles rdtsc =>
      simp only [eventStep, hookStep, Option.some.injEq] at hstep
      subst hstep
      exact OnFunctionEntry_coalesced L pexit s h _ _ _ _ _ _
    | exit stack_pointer cycles_exit x rdtsc =>
      simp only [eventStep, hookStep] at hstep
      cases hr : OnFunctionExit L s stack_pointer cycles_exit x rdtsc with
      | none => rw [hr] at hstep; cases hstep
      | some r =>
        rw [hr, Option.map_some', Option.some.injEq] at hstep
        subst hstep
        exact OnFunctionExit_coalesced L hL s h _ _ _ _ r hr

/-- The coalescing invariant holds in every state a run of events reaches. -/
theorem runEvents_coalesced (L : Layout) (hL : L.Valid) (pexit : Nat) :
    ∀ (es : List ThreadEvent) (s s1 : ThreadState), Coalesced L s →
      runEvents L pexit s es = some s1 → Coalesced L s1
  | [], s, s1, h, hrun => by
    simp only [runEvents, Option.some.injEq] at hrun
    subst hrun
    exact h
  | e :: es, s, s1, h, hrun => by
    simp only [runEvents] at hrun
    cases hstep : eventStep L pexit s e with
    | none => rw [hstep] at hrun; cases hrun
    | some s2 =>
      rw [hstep] at hrun
      exact runEvents_coalesced L hL pexit es s2 s1
        (eventStep_coalesced L hL pexit s h e s2 hstep) hrun

theorem batchSlots_of_size (L : Layout) (hL : L.Valid) (n : Nat) :
    batchSlots L
      ⟨kInvocationInfoBatchType, L.sizeof_InvocationInfoBatch + n * L.sizeof_InvocationInfo⟩
      = n + 1 := by
  simp only [batchSlots, Nat.add_sub_cancel_left]
  rw [Nat.mul_div_cancel n hL.2.1]

theorem mem_slots (L : Layout) (b n p : Nat) :
    p ∈ ((List.range (n + 1)).map (slotAddress L b)).reverse ↔
      ∃ i, i < n + 1 ∧ p = slotAddress L b i := by
  rw [List.mem_reverse, List.mem_map]
  constructor
  · rintro ⟨i, hi, rfl⟩
    exact ⟨i, List.mem_range.1 hi, rfl⟩
  · rintro ⟨i, hi, rfl⟩
    exact ⟨i, List.mem_range.2 hi, rfl⟩

/-! ## C11: the coalescing invariant of the thread state -/

/-- C11: in every state reached from a fresh thread state by a sequence of
`OnModuleEntry`, `OnFunctionEntry`, `OnFunctionExit` and `FlushSegment` calls,
whenever the invocation table is not empty the open-batch pointer is not
`NULL` and points to a batch record of the current segment; the table has as
many entries as that batch has `InvocationInfo` cells; the addresses in the
table are pairwise different, lie below the write pointer, and are exactly the
cells of the batch; the cell of every key holds that key as its
`(caller, function)`; no key is bound twice; hence two different cells of the
batch never hold the same `(caller, function)` pair. -/
theorem coalescing_invariant (L : Layout) (hL : L.Valid) (pexit : Nat) (s0 : ThreadState)
    (hfresh : Fresh s0) (es : List ThreadEvent) (s : ThreadState)
    (hrun : runEvents L pexit s0 es = some s) (hne : s.invocations_ ≠ []) :
    ∃ b h, s.batch_ = some b ∧ s.segment_.headers.lookup b = some h ∧
      h.type = kInvocationInfoBatchType ∧
      batchSlots L h = s.invocations_.length ∧
      (s.invocations_.map Prod.snd).Nodup ∧
      (∀ kp ∈ s.invocations_, kp.2 < s.segment_.write_ptr ∧
        ∃ i, i < batchSlots L h ∧ kp.2 = slotAddress L b i) ∧
      (∀ i, i < batchSlots L h → ∃ kp ∈ s.invocations_, kp.2 = slotAddress L b i) ∧
      (∀ kp ∈ s.invocations_, ∃ info, s.segment_.readInfo kp.2 = some info ∧
        (info.caller, info.function) = kp.1) ∧
      (s.invocations_.map Prod.fst).Nodup ∧
      (∀ kp ∈ s.invocations_, ∀ kq ∈ s.invocations_, kp.2 ≠ kq.2 →
        ∀ ip iq, s.segment_.readInfo kp.2 = some ip → s.segment_.readInfo kq.2 = some iq →
          (ip.caller, ip.function) ≠ (iq.caller, iq.function)) := by
  have h0 : Coalesced L s0 := Coalesced_cleared L s0 hfresh.2.2.1 hfresh.1
  obtain ⟨hsound, hc⟩ := runEvents_coalesced L hL pexit es s0 s h0 hrun
  cases hb : s.batch_ with
  | none =>
    rw [hb] at hc
    exact absurd hc hne
  | some b =>
    rw [hb] at hc
    obtain ⟨n, hlen, hhead, -, hsnd, hkeys, hread⟩ := hc
    have hslots := batchSlots_of_size L hL n
    have hread2 : ∀ kp ∈ s.invocations_, ∃ info, s.segment_.readInfo kp.2 = some info ∧
        (info.caller, info.function) = kp.1 := by
      intro kp hkp
      obtain ⟨info, hr, hcal, hfun⟩ := hread kp hkp
      exact ⟨info, hr, by rw [hcal, hfun]⟩
    refine ⟨b, _, rfl, hhead, rfl, by rw [hslots, hlen], hsound.2, ?_, ?_, hread2, hkeys, ?_⟩
    · intro kp hkp
      refine ⟨hsound.1 kp hkp, ?_⟩
      have hm : kp.2 ∈ s.invocations_.map Prod.snd := List.mem_map.2 ⟨kp, hkp, rfl⟩
      rw [hsnd, mem_slots] at hm
      rw [hslots]
      exact hm
    · intro i hi
      rw [hslots] at hi
      have hm : slotAddress L b i ∈ s.invocations_.map Prod.snd := by
        rw [hsnd, mem_slots]
        exact ⟨i, hi, rfl⟩
      obtain ⟨kp, hkp, e⟩ := List.mem_map.1 hm
      exact ⟨kp, hkp, e⟩
    · intro kp hkp kq hkq hpq ip iq hip hiq
      obtain ⟨ip0, hip0, ekp⟩ := hread2 kp hkp
      obtain ⟨iq0, hiq0, ekq⟩ := hread2 kq hkq
      have e1 : ip0 = ip := Option.some.inj (hip0.symm.trans hip)
      have e2 : iq0 = iq := Option.some.inj (hiq0.symm.trans hiq)
      subst e1 e2
      rw [ekp, ekq]
      intro hk
      have := List.inj_on_of_nodup_map hkeys hkp hkq hk
      exact hpq (by rw [this])

/-- The run of `sampleEvents` from `initialState 4096`, evaluated: the module
record went out with a flush, and the open batch at address 16 of the current
segment holds four cells of 40 bytes, one for each of the four different
`(caller, function)` pairs recorded, the pair called twice among them. -/
theorem sampleFinalState_table :
    runEvents layout32 samplePexit (initialState 4096) sampleEvents = some sampleFinalState ∧
    sampleFinalState.batch_ = some 16 ∧
    sampleFinalState.segment_.headers.lookup 16 =
      some { type := kInvocationInfoBatchType, size := 160 } ∧
    sampleFinalState.invocations_ =
      [((0x401000, 0x402000), 136), ((0x402020, 0x404000), 96),
       ((0x402010, 0x403000), 56), ((0x7c901000, 0x10001000), 16)] ∧
    List.map (fun p => Option.map (fun i => (i.caller, i.function, i.num_calls))
        (sampleFinalState.segment_.readInfo p)) [16, 56, 96, 136] =
      [some (0x7c901000, 0x10001000, 1), some (0x402010, 0x403000, 2),
       some (0x402020, 0x404000, 1), some (0x401000, 0x402000, 1)] ∧
    sampleFinalState.stack_ = [] := by
  decide

/-- The theorem of C11 on the run of `sampleEvents` from `initialState 4096`. -/
theorem coalescing_invariant_witness :
    layout32.Valid ∧ Fresh (initialState 4096) ∧
    runEvents layout32 samplePexit (initialState 4096) sampleEvents = some sampleFinalState ∧
    sampleFinalState.invocations_ ≠ [] ∧
    ∃ b h, sampleFinalState.batch_ = some b ∧
      sampleFinalState.segment_.headers.lookup b = some h ∧
      h.type = kInvocationInfoBatchType ∧
      batchSlots layout32 h = sampleFinalState.invocations_.length ∧
      (sampleFinalState.invocations_.map Prod.snd).Nodup ∧
      (∀ kp ∈ sampleFinalState.invocations_, kp.2 < sampleFinalState.segment_.write_ptr ∧
        ∃ i, i < batchSlots layout32 h ∧ kp.2 = slotAddress layout32 b i) ∧
      (∀ i, i < batchSlots layout32 h →
        ∃ kp ∈ sampleFinalState.invocations_, kp.2 = slotAddress layout32 b i) ∧
      (∀ kp ∈ sampleFinalState.invocations_,
        ∃ info, sampleFinalState.segment_.readInfo kp.2 = some info ∧
          (info.caller, info.function) = kp.1) ∧
      (sampleFinalState.invocations_.map Prod.fst).Nodup ∧
      (∀ kp ∈ sampleFinalState.invocations_, ∀ kq ∈ sampleFinalState.invocations_,
        kp.2 ≠ kq.2 → ∀ ip iq, sampleFinalState.segment_.readInfo kp.2 = some ip →
          sampleFinalState.segment_.readInfo kq.2 = some iq →
          (ip.caller, ip.function) ≠ (iq.caller, iq.function)) :=
  ⟨by decide, by decide, by decide, by decide,
    coalescing_invariant layout32 (by decide) samplePexit (initialState 4096) (by decide)
      sampleEvents sampleFinalState (by decide) (by decide)⟩

/-! ## The specified trimming on the stack pointers of the exit thunk -/

/-- The rule of `TrimOrphansOnExit` pops a top frame whose address is below the
stack pointer. -/
theorem TrimOrphansOnExit_drops_top (top : StackEntry) (rest : List StackEntry)
    (stack_pointer : Nat) (h : top.entry_frame < stack_pointer) :
    TrimOrphansOnExit (top :: rest) stack_pointer = TrimOrphansOnExit rest stack_pointer := by
  simp [TrimOrphansOnExit, List.dropWhile_cons, h]

/-- An exit trims nothing from a non-empty stack only when its stack pointer is
not above the frame address on top. -/
theorem TrimOrphansOnExit_fixes_iff (top : StackEntry) (rest : List StackEntry)
    (stack_pointer : Nat) :
    TrimOrphansOnExit (top :: rest) stack_pointer = top :: rest ↔
      stack_pointer ≤ top.entry_frame := by
  constructor
  · intro h
    by_contra hlt
    rw [TrimOrphansOnExit_drops_top top rest stack_pointer (Nat.lt_of_not_le hlt)] at h
    have hlen := congrArg List.length h
    have hle : (TrimOrphansOnExit rest stack_pointer).length ≤ rest.length :=
      (List.dropWhile_sublist _).length_le
    rw [List.length_cons] at hlen
    omega
  · intro h
    simp [TrimOrphansOnExit, List.dropWhile_cons, Nat.not_lt.2 h]

/-- For every stack pointer above the frame address, the frame an enabled entry
hook has just pushed is discarded before the pop of the exit hook: the exit
hook pops what it would have popped had the entry hook pushed nothing. -/
theorem exit_above_frame_discards_pushed (pexit : Nat) (s : ThreadState)
    (entry_frame : Nat) (frame : EntryFrame) (function cycles rdtsc stack_pointer : Nat)
    (h : entry_frame < stack_pointer) :
    Pop (TrimOrphansOnExit
      (OnFunctionEntry pexit s false entry_frame frame function cycles rdtsc).1.stack_
      stack_pointer) =
    Pop (TrimOrphansOnExit (TrimOrphansOnEntry s.stack_ entry_frame) stack_pointer) := by
  simp only [OnFunctionEntry, Bool.false_eq_true, if_false, Push, UpdateOverhead]
  rw [TrimOrphansOnExit_drops_top _ _ _ h]

/-! ## C4: the exit hook and the displaced return address -/

end Profiler
